import Mathlib

/-!
# IPv6 neighbour cache and subnet relay (`core/net/uip-ds6-nbr.c`)

A shallow embedding of the neighbour cache of `uip-ds6-nbr.c`: the neighbour
record, the per-table periodic NUD processing, the link-layer feedback
callback and the router relay policy `next_route`.

The embedding is of the build in which the section guarded by
`UIP_ND6_SEND_NA` is compiled in. The section guarded by `UIP_DS6_LL_NUD`
calls the two-parameter `uip_ds6_nbr_ll_lookup` with one argument, so it is
part of no build of the file and is left out. The debug output (`PRINTF`) and
the notification hook of add and remove have no effect on the state and are
left out.
-/

namespace Ds6

/-! ## Data model -/

/-- The five NUD states of a neighbour record. -/
inductive nbr_state where
  | NBR_INCOMPLETE
  | NBR_REACHABLE
  | NBR_STALE
  | NBR_DELAY
  | NBR_PROBE
deriving DecidableEq, Repr

/-- A 128-bit IPv6 address, held as its eight 16-bit words `u16[0..7]`. -/
structure uip_ipaddr_t where
  w0 : Nat
  w1 : Nat
  w2 : Nat
  w3 : Nat
  w4 : Nat
  w5 : Nat
  w6 : Nat
  w7 : Nat
deriving DecidableEq, Repr

/-- The byte view `u8[6]` of an address: one half of the word `u16[3]`. -/
def uip_ipaddr_t.u8_6 (a : uip_ipaddr_t) : Nat := a.w3 % 256

/-- The byte view `u8[7]` of an address: the other half of the word `u16[3]`. -/
def uip_ipaddr_t.u8_7 (a : uip_ipaddr_t) : Nat := (a.w3 / 256) % 256

/-- A link-layer address (`rimeaddr_t` / `uip_lladdr_t`), as the number its bytes spell. -/
abbrev rimeaddr_t := Nat

/-- The all-zero link-layer address. -/
def rimeaddr_null : rimeaddr_t := 0

/-- Modelled from the spec: the timer primitive (`set`, `expired`), which is not
part of the source file. A soft timer is the second it was set at and its interval. -/
structure stimer where
  start : Nat
  interval : Nat
deriving DecidableEq, Repr

/-- Modelled from the spec: `stimer_set(t, interval)` at clock value `now`. -/
def stimer_set (now interval : Nat) : stimer := ⟨now, interval⟩

/-- Modelled from the spec: `stimer_expired(t)` at clock value `now`. -/
def stimer_expired (now : Nat) (t : stimer) : Bool := decide (t.start + t.interval ≤ now)

/-- The neighbour record `uip_ds6_nbr_t`. The solicitation counter is a count;
its declaration is not part of the source file. -/
structure uip_ds6_nbr_t where
  ipaddr : uip_ipaddr_t
  isrouter : Nat
  state : nbr_state
  reachable : stimer
  sendns : stimer
  nscount : Nat
deriving DecidableEq, Repr

/-- One slot of a neighbour table: the link-layer address the table adapter
keeps as key, and the record stored under it. -/
structure nbr_entry where
  lladdr : rimeaddr_t
  nbr : uip_ds6_nbr_t
deriving DecidableEq, Repr

/-- Modelled from the spec: a neighbour table of the table adapter, as its live
slots in iteration order (`head`, `next`). -/
abbrev nbr_table_t := List nbr_entry

/-- A default route: its next hop and the infinite-lifetime flag. -/
structure uip_ds6_defrt_t where
  ipaddr : uip_ipaddr_t
  isinfinite : Bool
deriving DecidableEq, Repr

/-- A Neighbor Solicitation handed to `uip_nd6_ns_output(src, dest, tgt)`;
an absent destination makes it a multicast solicitation. -/
structure ns_msg where
  src : Option uip_ipaddr_t
  dest : Option uip_ipaddr_t
  tgt : uip_ipaddr_t
deriving DecidableEq, Repr

/-- The constants of the neighbour discovery configuration the source file
names; their definitions are not part of the source file. -/
structure nd6_conf where
  UIP_ND6_MAX_MULTICAST_SOLICIT : Nat
  UIP_ND6_MAX_UNICAST_SOLICIT : Nat
  UIP_ND6_REACHABLE_TIME : Nat
  retrans_timer : Nat
  ns_len : Nat

/-- The state of the collaborators that the neighbour cache reads and writes:
the clock in seconds, the length of the packet in the uIP buffer, the
solicitations emitted so far and the default-route table. -/
structure nd_env where
  clock : Nat
  uip_len : Nat
  ns_sent : List ns_msg
  defrt : List uip_ds6_defrt_t
deriving DecidableEq, Repr

/-! ## Collaborators -/

/-- Modelled from the spec: the solicitation emitter `uip_nd6_ns_output`, which
is not part of the source file. It emits one solicitation and leaves the
packet, of length `ns_len`, in the uIP buffer. -/
def uip_nd6_ns_output (c : nd6_conf) (s : nd_env) (src dest : Option uip_ipaddr_t)
    (tgt : uip_ipaddr_t) : nd_env :=
  { s with uip_len := c.ns_len, ns_sent := s.ns_sent ++ [⟨src, dest, tgt⟩] }

/-- Modelled from the spec: `uip_ds6_defrt_lookup`, the default route whose next
hop is the given address. -/
def uip_ds6_defrt_lookup (l : List uip_ds6_defrt_t) (a : uip_ipaddr_t) : Option uip_ds6_defrt_t :=
  l.find? (fun r => r.ipaddr == a)

/-- Modelled from the spec: `uip_ds6_defrt_rm`, removal of one default route. -/
def uip_ds6_defrt_rm (l : List uip_ds6_defrt_t) (r : uip_ds6_defrt_t) : List uip_ds6_defrt_t :=
  l.erase r

/-- Modelled from the spec: `nbr_table_head`, the first live slot of a table. -/
def nbr_table_head (t : nbr_table_t) : Option nbr_entry := t.head?

/-- Modelled from the spec: the slots that follow the slot of the record `e` in
the iteration order of its table `t`, found by the link-layer address the slot
is kept under. For a record of another table neither the source nor the spec
says what the adapter does; of that case only the step through a table without
slots, which has no next slot, is relied on. -/
def nbr_table_after (t : nbr_table_t) (e : nbr_entry) : List nbr_entry :=
  (t.dropWhile (fun x => x.lladdr != e.lladdr)).drop 1

/-- Modelled from the spec: `nbr_table_next(t, e)`. -/
def nbr_table_next (t : nbr_table_t) (e : nbr_entry) : Option nbr_entry :=
  (nbr_table_after t e).head?

/-- Modelled from the spec: `nbr_table_get_from_lladdr`, the slot kept under a
link-layer address. -/
def nbr_table_get_from_lladdr (t : nbr_table_t) (ll : rimeaddr_t) : Option nbr_entry :=
  t.find? (fun x => x.lladdr == ll)

/-! ## Lookups -/

/-- The function `uip_ds6_nbr_ll_lookup`. -/
def uip_ds6_nbr_ll_lookup (t : nbr_table_t) (ll : rimeaddr_t) : Option nbr_entry :=
  nbr_table_get_from_lladdr t ll

/-! ## Periodic processing -/

/-- The body of the loop of `uip_ds6_neighbor_periodic` for one record: the
`switch` on the state. The result is the new state of the collaborators and
the record as it is left in the table, `none` when `uip_ds6_nbr_rm` removed it. -/
def nbr_periodic_visit (c : nd6_conf) (s : nd_env) (n : uip_ds6_nbr_t) :
    nd_env × Option uip_ds6_nbr_t :=
  match n.state with
  | .NBR_REACHABLE =>
    if stimer_expired s.clock n.reachable then
      (s, some { n with state := .NBR_STALE })
    else (s, some n)
  | .NBR_INCOMPLETE =>
    if n.nscount ≥ c.UIP_ND6_MAX_MULTICAST_SOLICIT then
      (s, none)
    else if stimer_expired s.clock n.sendns && s.uip_len == 0 then
      (uip_nd6_ns_output c s none none n.ipaddr,
        some { n with nscount := n.nscount + 1,
                      sendns := stimer_set s.clock (c.retrans_timer / 1000) })
    else (s, some n)
  | .NBR_DELAY =>
    if stimer_expired s.clock n.reachable then
      (s, some { n with state := .NBR_PROBE, nscount := 0,
                        sendns := stimer_set s.clock 0 })
    else (s, some n)
  | .NBR_PROBE =>
    if n.nscount ≥ c.UIP_ND6_MAX_UNICAST_SOLICIT then
      let s1 : nd_env :=
        match uip_ds6_defrt_lookup s.defrt n.ipaddr with
        | some locdefrt =>
          if !locdefrt.isinfinite then
            { s with defrt := uip_ds6_defrt_rm s.defrt locdefrt }
          else s
        | none => s
      (s1, none)
    else if stimer_expired s.clock n.sendns && s.uip_len == 0 then
      (uip_nd6_ns_output c s none (some n.ipaddr) n.ipaddr,
        some { n with nscount := n.nscount + 1,
                      sendns := stimer_set s.clock (c.retrans_timer / 1000) })
    else (s, some n)
  | .NBR_STALE => (s, some n)

/-- The loop of `uip_ds6_neighbor_periodic` over the slots still to visit: each
slot is visited once, in iteration order, and a slot removed during its visit
is gone from the table afterwards. -/
def periodic_loop (c : nd6_conf) : nd_env → List nbr_entry → nd_env × List nbr_entry
  | s, [] => (s, [])
  | s, e :: rest =>
    let r := nbr_periodic_visit c s e.nbr
    let q := periodic_loop c r.1 rest
    (q.1, match r.2 with
          | some n => { e with nbr := n } :: q.2
          | none => q.2)

/-- The function `uip_ds6_neighbor_periodic`: one periodic tick over a table. -/
def uip_ds6_neighbor_periodic (c : nd6_conf) (s : nd_env) (t : nbr_table_t) :
    nd_env × nbr_table_t :=
  periodic_loop c s t

/-- The state of the collaborators at the moment a tick that starts in `s`
reaches the slot kept under the link-layer address `k`. -/
def visit_env (c : nd6_conf) (s : nd_env) (t : nbr_table_t) (k : rimeaddr_t) : nd_env :=
  (periodic_loop c s (t.takeWhile (fun x => x.lladdr != k))).1

/-- A tick started in `s` is solicitation-eligible for the slot kept under `k`:
when the slot is visited its `sendns` timer has expired and no packet is in
the uIP buffer (`uip_len == 0`). -/
def sol_eligible (c : nd6_conf) (s : nd_env) (t : nbr_table_t) (k : rimeaddr_t) : Bool :=
  match uip_ds6_nbr_ll_lookup t k with
  | some e => stimer_expired s.clock e.nbr.sendns && (visit_env c s t k).uip_len == 0
  | none => false

/-- A run of ticks on one table; every tick starts from the state of the
collaborators given for it. -/
def periodic_run (c : nd6_conf) : List nd_env → nbr_table_t → nbr_table_t
  | [], t => t
  | s :: ss, t => periodic_run c ss (uip_ds6_neighbor_periodic c s t).2

/-- Every tick of the run is solicitation-eligible for the slot kept under `k`. -/
def all_eligible (c : nd6_conf) (k : rimeaddr_t) : List nd_env → nbr_table_t → Bool
  | [], _ => true
  | s :: ss, t =>
    sol_eligible c s t k && all_eligible c k ss (uip_ds6_neighbor_periodic c s t).2

/-! ## Link-layer feedback -/

/-- What a call of `uip_ds6_link_neighbor_callback` leaves behind: the general
neighbour cache and the invocations of the hook `LINK_NEIGHBOR_CALLBACK` made,
each with destination, status and number of transmissions. -/
structure link_callback_result where
  ds6_neighbors : nbr_table_t
  hook_calls : List (rimeaddr_t × Int × Int)
deriving DecidableEq, Repr

/-- The function `uip_ds6_link_neighbor_callback` as it is built. The destination
`dest` is the receiver address of the packet buffer. A call for the null address
returns at once; any other call invokes the hook. The block behind the hook,
guarded by `UIP_DS6_LL_NUD`, is part of no build: its lookup (line 226) passes
one argument to `uip_ds6_nbr_ll_lookup`, which line 192 defines with two. -/
def uip_ds6_link_neighbor_callback (ds6_neighbors : nbr_table_t) (dest : rimeaddr_t)
    (status numtx : Int) : link_callback_result :=
  if dest == rimeaddr_null then ⟨ds6_neighbors, []⟩
  else ⟨ds6_neighbors, [(dest, status, numtx)]⟩

/-! ## Router relay policy -/

/-- The routing-protocol context `my_info`, the goal value `RPL_SUPER_ROUTER` and
the address `super_router_addr`; their definitions are not part of the source file. -/
structure rpl_info where
  my_prefix : Nat
  my_address : uip_ipaddr_t
  my_goal : Nat
  RPL_SUPER_ROUTER : Nat
  super_router_addr : uip_ipaddr_t

/-- What a call of `next_route` leaves behind: the pointer returned (`none` is
`NULL`), the caller's address object after the call, and the addresses the call
stored through a null pointer. -/
structure route_result where
  ret : Option uip_ipaddr_t
  ipaddr : uip_ipaddr_t
  null_stores : List uip_ipaddr_t
deriving DecidableEq, Repr

/-- The value `abs(ipaddr->u8[6]-nbr->ipaddr.u8[6]) + abs(ipaddr->u8[7]-nbr->ipaddr.u8[7])`
as assigned to the 16-bit `prefix_distance`. -/
def prefix_distance (ipaddr a : uip_ipaddr_t) : Nat :=
  (Int.natAbs ((ipaddr.u8_6 : Int) - (a.u8_6 : Int))
    + Int.natAbs ((ipaddr.u8_7 : Int) - (a.u8_7 : Int))) % 65536

/-- The loop of the out-of-subnet branch of `next_route` over the slots still
to visit. The state is `best_distance` and the addresses copied so far by
`uip_ipaddr_copy(best_dest, &nbr->ipaddr)`; the pointer `best_dest` is `NULL`
throughout, the loop never assigns it. -/
def outsubnet_loop (ipaddr : uip_ipaddr_t) : Nat × List uip_ipaddr_t → List nbr_entry →
    Nat × List uip_ipaddr_t
  | st, [] => st
  | st, e :: rest =>
    if prefix_distance ipaddr e.nbr.ipaddr > st.1 then
      outsubnet_loop ipaddr (prefix_distance ipaddr e.nbr.ipaddr, st.2 ++ [e.nbr.ipaddr]) rest
    else outsubnet_loop ipaddr st rest

/-- The function `next_route` of the router role. In the in-subnet branch the
first record examined is the head of `insubnet_table`; every further record is
the one `nbr_table_next(outsubnet_table, nbr)` gives for the current one
(line 383), which is a step through the out-subnet table from a record of the
in-subnet table: it ends at once when the out-subnet table has no slot, and is
otherwise outside what source and spec fix for the adapter. -/
def next_route (r : rpl_info) (insubnet_table outsubnet_table : nbr_table_t)
    (ipaddr : uip_ipaddr_t) : route_result :=
  if ipaddr.w3 == r.my_prefix then
    if ipaddr.w2 == r.my_address.w7 then
      ⟨some { ipaddr with w2 := 0 }, { ipaddr with w2 := 0 }, []⟩
    else
      let visited : List nbr_entry :=
        match nbr_table_head insubnet_table with
        | some e => e :: nbr_table_after outsubnet_table e
        | none => []
      match visited.find? (fun e => e.nbr.ipaddr.w7 == ipaddr.w2) with
      | some e => ⟨some e.nbr.ipaddr, ipaddr, []⟩
      | none =>
        if r.my_goal == r.RPL_SUPER_ROUTER then ⟨none, ipaddr, []⟩
        else ⟨some r.super_router_addr, ipaddr, []⟩
  else
    let best_dest : Option uip_ipaddr_t := none
    let st := outsubnet_loop ipaddr (0, []) outsubnet_table
    ⟨best_dest, ipaddr, st.2⟩

/-! ## Record lifecycle -/

/-- Modelled from the spec: the decision of the table adapter on
`nbr_table_add_lladdr`, which is not part of the source file. A table with room
for `max` slots accepts the insertion of a link-layer address when it keeps no
slot under that address yet and has a free slot; it does not evict. -/
def nbr_table_accepts (max : Nat) (t : nbr_table_t) (lladdr : rimeaddr_t) : Bool :=
  !(t.any (fun x => x.lladdr == lladdr)) && decide (t.length < max)

/-- The function `uip_ds6_nbr_add` at clock value `now` on a table with room for
`max` slots: the table after the call and the record returned (`none` is
`NULL`). An accepted slot comes last in the iteration order. -/
def uip_ds6_nbr_add (max now : Nat) (t : nbr_table_t) (ipaddr : uip_ipaddr_t)
    (lladdr : rimeaddr_t) (isrouter : Nat) (state : nbr_state) :
    nbr_table_t × Option nbr_entry :=
  if nbr_table_accepts max t lladdr then
    (t ++ [⟨lladdr, ⟨ipaddr, isrouter, state, stimer_set now 0, stimer_set now 0, 0⟩⟩],
      some ⟨lladdr, ⟨ipaddr, isrouter, state, stimer_set now 0, stimer_set now 0, 0⟩⟩)
  else (t, none)

/-- Modelled from the spec: `nbr_table_remove`, which frees the slot of a record;
the slot is the one kept under the link-layer address of the record. -/
def nbr_table_remove (t : nbr_table_t) (e : nbr_entry) : nbr_table_t :=
  t.filter (fun x => x.lladdr != e.lladdr)

/-- The function `uip_ds6_nbr_rm`; the record `none` is `NULL`. -/
def uip_ds6_nbr_rm (t : nbr_table_t) (nbr : Option nbr_entry) : nbr_table_t :=
  match nbr with
  | some e => nbr_table_remove t e
  | none => t

/-- The loop of `uip_ds6_nbr_num` over the slots still to visit. -/
def nbr_num_loop : Nat → List nbr_entry → Nat
  | num, [] => num
  | num, _ :: rest => nbr_num_loop (num + 1) rest

/-- The function `uip_ds6_nbr_num`. -/
def uip_ds6_nbr_num (t : nbr_table_t) : Nat := nbr_num_loop 0 t

/-- The comparison `uip_ipaddr_cmp` of two addresses. -/
def uip_ipaddr_cmp (a b : uip_ipaddr_t) : Bool := a == b

/-- The loop of `uip_ds6_nbr_lookup` over the slots still to visit. -/
def nbr_lookup_loop (ipaddr : uip_ipaddr_t) : List nbr_entry → Option nbr_entry
  | [] => none
  | e :: rest => if uip_ipaddr_cmp e.nbr.ipaddr ipaddr then some e else nbr_lookup_loop ipaddr rest

/-- The function `uip_ds6_nbr_lookup`; the address `none` is the `NULL` pointer. -/
def uip_ds6_nbr_lookup (t : nbr_table_t) (ipaddr : Option uip_ipaddr_t) : Option nbr_entry :=
  match ipaddr with
  | some a => nbr_lookup_loop a t
  | none => none

/-- The function `uip_ds6_nbr_get_ll`: the link-layer address the table keeps
the slot of a record under. -/
def uip_ds6_nbr_get_ll (_t : nbr_table_t) (nbr : nbr_entry) : Option rimeaddr_t :=
  some nbr.lladdr

/-- The function `uip_ds6_nbr_ipaddr_from_lladdr`. -/
def uip_ds6_nbr_ipaddr_from_lladdr (t : nbr_table_t) (lladdr : rimeaddr_t) :
    Option uip_ipaddr_t :=
  match uip_ds6_nbr_ll_lookup t lladdr with
  | some nbr => some nbr.nbr.ipaddr
  | none => none

/-- The function `uip_ds6_nbr_lladdr_from_ipaddr`. -/
def uip_ds6_nbr_lladdr_from_ipaddr (t : nbr_table_t) (ipaddr : Option uip_ipaddr_t) :
    Option rimeaddr_t :=
  match uip_ds6_nbr_lookup t ipaddr with
  | some nbr => uip_ds6_nbr_get_ll t nbr
  | none => none

/-- One call on a table: `uip_ds6_nbr_add` at a clock value, or `uip_ds6_nbr_rm`
of the record the caller holds. -/
inductive nbr_op where
  | add (now : Nat) (ipaddr : uip_ipaddr_t) (lladdr : rimeaddr_t) (isrouter : Nat)
      (state : nbr_state)
  | rm (nbr : Option nbr_entry)

/-- A table together with the number of adds that returned a record and the
number of removals performed on it so far. -/
structure nbr_trace where
  table : nbr_table_t
  added : Nat
  removed : Nat

/-- One call of a sequence: an add counts when it returns a record, a removal
when the table keeps a slot for the record handed to `uip_ds6_nbr_rm`. -/
def nbr_op_step (max : Nat) (tr : nbr_trace) : nbr_op → nbr_trace
  | .add now ipaddr lladdr isrouter state =>
    match uip_ds6_nbr_add max now tr.table ipaddr lladdr isrouter state with
    | (t, some _) => ⟨t, tr.added + 1, tr.removed⟩
    | (t, none) => ⟨t, tr.added, tr.removed⟩
  | .rm nbr =>
    match nbr with
    | some e =>
      if (uip_ds6_nbr_ll_lookup tr.table e.lladdr).isSome then
        ⟨uip_ds6_nbr_rm tr.table (some e), tr.added, tr.removed + 1⟩
      else ⟨uip_ds6_nbr_rm tr.table (some e), tr.added, tr.removed⟩
    | none => ⟨uip_ds6_nbr_rm tr.table none, tr.added, tr.removed⟩

/-- A sequence of calls on one table. -/
def nbr_ops_run (max : Nat) : List nbr_op → nbr_trace → nbr_trace
  | [], tr => tr
  | op :: ops, tr => nbr_ops_run max ops (nbr_op_step max tr op)

/-! ## Least remaining lifetime -/

/-- Modelled from the spec: `stimer_remaining(t)` at clock value `now`, the
unsigned 32-bit difference between the end of the interval and the clock. -/
def stimer_remaining (now : Nat) (t : stimer) : Nat :=
  (((t.start + t.interval : Nat) : Int) - (now : Int)).emod (2 ^ 32) |>.toNat

/-- The loop of `uip_ds6_get_least_lifetime_neighbor` over the slots still to
visit, with the current `nbr_expiring`. -/
def least_lifetime_loop (now : Nat) : Option nbr_entry → List nbr_entry → Option nbr_entry
  | nbr_expiring, [] => nbr_expiring
  | nbr_expiring, nbr :: rest =>
    match nbr_expiring with
    | some x =>
      let curr := stimer_remaining now nbr.nbr.reachable
      if curr < stimer_remaining now nbr.nbr.reachable then
        least_lifetime_loop now (some nbr) rest
      else least_lifetime_loop now (some x) rest
    | none => least_lifetime_loop now (some nbr) rest

/-- The function `uip_ds6_get_least_lifetime_neighbor` at clock value `now`. -/
def uip_ds6_get_least_lifetime_neighbor (now : Nat) (t : nbr_table_t) : Option nbr_entry :=
  least_lifetime_loop now none t

/-! ## Router registration -/

/-- What a call of `add_to_subnet_route_table` leaves behind: the value returned
and the two tables. -/
structure subnet_add_result where
  ret : Nat
  insubnet_table : nbr_table_t
  outsubnet_table : nbr_table_t
deriving DecidableEq, Repr

/-- The loop of the out-of-subnet branch of `add_to_subnet_route_table`: `true`
when a slot still to visit has the prefix word of the address, where the
function returns 0. -/
def outsubnet_scan (ipaddr : uip_ipaddr_t) : List nbr_entry → Bool
  | [] => false
  | nbr :: rest => if nbr.nbr.ipaddr.w3 == ipaddr.w3 then true else outsubnet_scan ipaddr rest

/-- The function `add_to_subnet_route_table` at clock value `now`, both tables
with room for `max` slots. -/
def add_to_subnet_route_table (max now : Nat) (r : rpl_info)
    (insubnet_table outsubnet_table : nbr_table_t) (ipaddr : uip_ipaddr_t)
    (lladdr : rimeaddr_t) : subnet_add_result :=
  if ipaddr.w3 == r.my_prefix then
    match uip_ds6_nbr_lookup insubnet_table (some ipaddr) with
    | none =>
      match uip_ds6_nbr_add max now insubnet_table ipaddr lladdr 0 .NBR_REACHABLE with
      | (t, some _) => ⟨1, t, outsubnet_table⟩
      | (t, none) => ⟨0, t, outsubnet_table⟩
    | some _ => ⟨0, insubnet_table, outsubnet_table⟩
  else
    if outsubnet_scan ipaddr outsubnet_table then ⟨0, insubnet_table, outsubnet_table⟩
    else
      match uip_ds6_nbr_add max now outsubnet_table ipaddr lladdr 0 .NBR_REACHABLE with
      | (t, some _) => ⟨1, insubnet_table, t⟩
      | (t, none) => ⟨0, insubnet_table, t⟩

/-- A sequence of `add_to_subnet_route_table` calls, each with its clock value,
address and link-layer address, on the pair of in-subnet and out-subnet table. -/
def subnet_route_run (max : Nat) (r : rpl_info) :
    List (Nat × uip_ipaddr_t × rimeaddr_t) → nbr_table_t × nbr_table_t →
      nbr_table_t × nbr_table_t
  | [], tt => tt
  | (now, ipaddr, lladdr) :: calls, tt =>
    subnet_route_run max r calls
      ((add_to_subnet_route_table max now r tt.1 tt.2 ipaddr lladdr).insubnet_table,
       (add_to_subnet_route_table max now r tt.1 tt.2 ipaddr lladdr).outsubnet_table)

/-! ## Leaf relay policy -/

namespace Leaf

/-- The function `add_to_agent_table` at clock value `now`: the value returned
and the agent table after the call. -/
def add_to_agent_table (max now : Nat) (agent_table : nbr_table_t) (ipaddr : uip_ipaddr_t)
    (lladdr : rimeaddr_t) : Nat × nbr_table_t :=
  match uip_ds6_nbr_add max now agent_table ipaddr lladdr 0 .NBR_REACHABLE with
  | (t, some _) => (1, t)
  | (t, none) => (0, t)

/-- The function `next_route` of the leaf role: the pointer returned (`none` is
`NULL`) and the number of calls of `rpl_reset_dis_periodic_timer` it made. -/
def next_route (agent_table : nbr_table_t) (_ipaddr : uip_ipaddr_t) :
    Option uip_ipaddr_t × Nat :=
  match nbr_table_head agent_table with
  | none => (none, 1)
  | some nbr => (some nbr.nbr.ipaddr, 0)

end Leaf

/-! ## Concrete data for the worked instances -/

/-- A configuration with three multicast and three unicast solicitations and a
retransmission interval of one second. -/
def conf_ex : nd6_conf := ⟨3, 3, 30000, 1000, 72⟩

/-- The collaborators at clock value `now`: empty uIP buffer, nothing emitted,
no default route. -/
def env_ex (now : Nat) : nd_env := ⟨now, 0, [], []⟩

def addr_a : uip_ipaddr_t := ⟨0xfe80, 0, 0, 1, 0, 0, 0, 5⟩

def addr_b : uip_ipaddr_t := ⟨0xfe80, 0, 0, 1, 0, 0, 0, 9⟩

/-- A table with a STALE record under link-layer address 4 and an INCOMPLETE
record, no solicitation sent yet, under link-layer address 7. -/
def table_incomplete : nbr_table_t :=
  [⟨4, ⟨addr_b, 0, .NBR_STALE, ⟨0, 0⟩, ⟨0, 0⟩, 0⟩⟩,
   ⟨7, ⟨addr_a, 0, .NBR_INCOMPLETE, ⟨0, 0⟩, ⟨0, 0⟩, 0⟩⟩]

/-- A table with a STALE record under link-layer address 4 and a PROBE record
that has sent three solicitations under link-layer address 7. -/
def table_probe : nbr_table_t :=
  [⟨4, ⟨addr_b, 0, .NBR_STALE, ⟨0, 0⟩, ⟨0, 0⟩, 0⟩⟩,
   ⟨7, ⟨addr_a, 0, .NBR_PROBE, ⟨0, 0⟩, ⟨0, 0⟩, 3⟩⟩]

/-- The collaborators at clock value 10 with a finite-lifetime default route
through `addr_a` and an infinite-lifetime one through `addr_b`. -/
def env_routes : nd_env := ⟨10, 0, [], [⟨addr_a, false⟩, ⟨addr_b, true⟩]⟩

/-- A table with a REACHABLE record under link-layer address 7 whose reachable
timer runs from second 0 to second 30. -/
def table_reachable : nbr_table_t :=
  [⟨4, ⟨addr_b, 0, .NBR_STALE, ⟨0, 0⟩, ⟨0, 0⟩, 0⟩⟩,
   ⟨7, ⟨addr_a, 1, .NBR_REACHABLE, ⟨0, 30⟩, ⟨0, 0⟩, 0⟩⟩]

/-- A table with a DELAY record under link-layer address 4 and a STALE record
under link-layer address 7. -/
def table_stale : nbr_table_t :=
  [⟨4, ⟨addr_b, 0, .NBR_DELAY, ⟨0, 0⟩, ⟨0, 0⟩, 0⟩⟩,
   ⟨7, ⟨addr_a, 1, .NBR_STALE, ⟨0, 30⟩, ⟨0, 0⟩, 2⟩⟩]

/-- A router with prefix 1 and host id 3 that is not the super router. -/
def router_ex : rpl_info :=
  ⟨1, ⟨0xfe80, 0, 0, 1, 0, 0, 0, 3⟩, 0, 1, ⟨0xfe80, 0, 0, 1, 0, 0, 0, 100⟩⟩

/-- The same router configured as super router. -/
def super_router_ex : rpl_info :=
  ⟨1, ⟨0xfe80, 0, 0, 1, 0, 0, 0, 3⟩, 1, 1, ⟨0xfe80, 0, 0, 1, 0, 0, 0, 100⟩⟩

/-- A record as `add_to_subnet_route_table` creates it: REACHABLE, not a router,
timers expired, no solicitation sent. -/
def router_rec (ip : uip_ipaddr_t) : uip_ds6_nbr_t :=
  ⟨ip, 0, .NBR_REACHABLE, ⟨0, 0⟩, ⟨0, 0⟩, 0⟩

/-- An in-subnet table of two sibling routers with host fields 5 and 9. -/
def insubnet_ex : nbr_table_t := [⟨10, router_rec addr_a⟩, ⟨11, router_rec addr_b⟩]

/-- A destination in the subnet with prefix 1 behind the router with host id 9. -/
def dest_leaf9 : uip_ipaddr_t := ⟨0xaaaa, 0, 9, 1, 0, 0, 0, 77⟩

/-- A destination in the subnet with prefix 1 behind the router with host id 3. -/
def dest_leaf3 : uip_ipaddr_t := ⟨0xaaaa, 0, 3, 1, 0, 0, 0, 77⟩

/-- A destination in the foreign subnet with prefix 2. -/
def dest_foreign : uip_ipaddr_t := ⟨0xaaaa, 0, 4, 2, 0, 0, 0, 77⟩

def addr_p3 : uip_ipaddr_t := ⟨0xfe80, 0, 0, 3, 0, 0, 0, 6⟩

def addr_p7 : uip_ipaddr_t := ⟨0xfe80, 0, 0, 7, 0, 0, 0, 9⟩

def addr_p1282 : uip_ipaddr_t := ⟨0xfe80, 0, 0, 1282, 0, 0, 0, 8⟩

/-- An out-subnet table with the representatives of the subnets 3, 7 and 1282;
the first is kept under the link-layer address 10. -/
def outsubnet_ex : nbr_table_t :=
  [⟨10, router_rec addr_p3⟩, ⟨21, router_rec addr_p7⟩, ⟨22, router_rec addr_p1282⟩]

/-- A table with a DELAY record under link-layer address 7 whose reachable
timer runs from second 0 to second 5, next to a STALE record. -/
def table_delay : nbr_table_t :=
  [⟨4, ⟨addr_b, 0, .NBR_STALE, ⟨0, 0⟩, ⟨0, 0⟩, 0⟩⟩,
   ⟨7, ⟨addr_a, 1, .NBR_DELAY, ⟨0, 5⟩, ⟨0, 9⟩, 2⟩⟩]

/-- A table in which two records, under the link-layer addresses 4 and 7, carry
the address `addr_a`. -/
def table_same_ip : nbr_table_t :=
  [⟨3, ⟨addr_b, 0, .NBR_STALE, ⟨0, 0⟩, ⟨0, 0⟩, 0⟩⟩,
   ⟨4, ⟨addr_a, 0, .NBR_REACHABLE, ⟨0, 30⟩, ⟨0, 0⟩, 0⟩⟩,
   ⟨7, ⟨addr_a, 1, .NBR_DELAY, ⟨0, 5⟩, ⟨0, 9⟩, 2⟩⟩]

/-- The arguments of one `uip_ds6_nbr_add` call and the clock value it is made at. -/
structure nbr_add_call where
  now : Nat
  ipaddr : uip_ipaddr_t
  lladdr : rimeaddr_t
  isrouter : Nat
  state : nbr_state

/-- The call as an element of a sequence of calls. -/
def nbr_add_call.op (a : nbr_add_call) : nbr_op :=
  .add a.now a.ipaddr a.lladdr a.isrouter a.state

/-- The slot the call fills when the insertion is accepted. -/
def nbr_add_call.entry (a : nbr_add_call) : nbr_entry :=
  ⟨a.lladdr, ⟨a.ipaddr, a.isrouter, a.state, stimer_set a.now 0, stimer_set a.now 0, 0⟩⟩

/-- Four adds with the link-layer addresses 1 to 4. -/
def four_adds : List nbr_add_call :=
  [⟨1, addr_a, 1, 0, .NBR_REACHABLE⟩, ⟨2, addr_b, 2, 1, .NBR_INCOMPLETE⟩,
   ⟨3, addr_a, 3, 0, .NBR_STALE⟩, ⟨4, addr_b, 4, 0, .NBR_REACHABLE⟩]

/-- A table with a STALE record under link-layer address 4 and a PROBE record
that has sent one solicitation under link-layer address 7. -/
def table_probe_low : nbr_table_t :=
  [⟨4, ⟨addr_b, 0, .NBR_STALE, ⟨0, 0⟩, ⟨0, 0⟩, 0⟩⟩,
   ⟨7, ⟨addr_a, 0, .NBR_PROBE, ⟨0, 0⟩, ⟨0, 0⟩, 1⟩⟩]

/-! ## General facts about a periodic tick -/

theorem periodic_loop_cons (c : nd6_conf) (s : nd_env) (e : nbr_entry) (rest : List nbr_entry) :
    periodic_loop c s (e :: rest) =
      ((periodic_loop c (nbr_periodic_visit c s e.nbr).1 rest).1,
        match (nbr_periodic_visit c s e.nbr).2 with
        | some n => { e with nbr := n } :: (periodic_loop c (nbr_periodic_visit c s e.nbr).1 rest).2
        | none => (periodic_loop c (nbr_periodic_visit c s e.nbr).1 rest).2) := rfl

/-- A tick inserts no slot: the keys after it are a sublist of the keys before. -/
theorem periodic_loop_keys_sublist (c : nd6_conf) :
    ∀ (t : List nbr_entry) (s : nd_env),
      ((periodic_loop c s t).2.map (fun x => x.lladdr)).Sublist (t.map (fun x => x.lladdr)) := by
  intro t
  induction t with
  | nil => intro s; simp [periodic_loop]
  | cons e rest ih =>
    intro s
    rw [periodic_loop_cons]
    cases h : (nbr_periodic_visit c s e.nbr).2 with
    | none => simpa using (ih _).trans (List.sublist_cons_self _ _)
    | some n => simpa using ih _

theorem periodic_loop_nodup (c : nd6_conf) (s : nd_env) (t : List nbr_entry)
    (h : (t.map (fun x => x.lladdr)).Nodup) :
    ((periodic_loop c s t).2.map (fun x => x.lladdr)).Nodup :=
  (periodic_loop_keys_sublist c t s).nodup h

theorem lookup_none_of_not_mem (t : nbr_table_t) (k : rimeaddr_t)
    (h : k ∉ t.map (fun x => x.lladdr)) : uip_ds6_nbr_ll_lookup t k = none := by
  unfold uip_ds6_nbr_ll_lookup nbr_table_get_from_lladdr
  rw [List.find?_eq_none]
  intro x hx hk
  exact h (List.mem_map.mpr ⟨x, hx, by simpa using hk⟩)

/-- The slot found under `k` after a tick is the slot found under `k` before it,
as its visit left it. -/
theorem periodic_lookup (c : nd6_conf) (k : rimeaddr_t) :
    ∀ (t : List nbr_entry) (s : nd_env) (e : nbr_entry),
      (t.map (fun x => x.lladdr)).Nodup → uip_ds6_nbr_ll_lookup t k = some e →
      uip_ds6_nbr_ll_lookup (uip_ds6_neighbor_periodic c s t).2 k =
        (nbr_periodic_visit c (visit_env c s t k) e.nbr).2.map (fun n => { e with nbr := n }) := by
  intro t
  induction t with
  | nil => intro s e _ h; simp [uip_ds6_nbr_ll_lookup, nbr_table_get_from_lladdr] at h
  | cons x rest ih =>
    intro s e hnd hlk
    have hnd2 : x.lladdr ∉ rest.map (fun y => y.lladdr) ∧ (rest.map (fun y => y.lladdr)).Nodup := by
      simpa using hnd
    unfold uip_ds6_neighbor_periodic
    rw [periodic_loop_cons]
    by_cases hk : x.lladdr = k
    · have hxe : x = e := by
        simpa [uip_ds6_nbr_ll_lookup, nbr_table_get_from_lladdr, List.find?_cons, hk] using hlk
      subst hxe
      have hve : visit_env c s (x :: rest) k = s := by
        simp [visit_env, List.takeWhile_cons, hk, periodic_loop]
      rw [hve]
      cases h : (nbr_periodic_visit c s x.nbr).2 with
      | some n =>
        simp [uip_ds6_nbr_ll_lookup, nbr_table_get_from_lladdr, List.find?_cons, hk]
      | none =>
        simp only [Option.map_none']
        apply lookup_none_of_not_mem
        intro hmem
        exact hnd2.1 (hk ▸ (periodic_loop_keys_sublist c rest _).subset hmem)
    · have hlk2 : uip_ds6_nbr_ll_lookup rest k = some e := by
        simpa [uip_ds6_nbr_ll_lookup, nbr_table_get_from_lladdr, List.find?_cons, hk] using hlk
      have hve : visit_env c s (x :: rest) k =
          visit_env c (nbr_periodic_visit c s x.nbr).1 rest k := by
        simp [visit_env, List.takeWhile_cons, hk, periodic_loop_cons]
      rw [hve, ← ih (nbr_periodic_visit c s x.nbr).1 e hnd2.2 hlk2]
      unfold uip_ds6_neighbor_periodic
      cases h : (nbr_periodic_visit c s x.nbr).2 with
      | some n =>
        simp [uip_ds6_nbr_ll_lookup, nbr_table_get_from_lladdr, List.find?_cons, hk]
      | none => rfl

/-- The clock does not move during a visit. -/
theorem nbr_periodic_visit_clock (c : nd6_conf) (s : nd_env) (n : uip_ds6_nbr_t) :
    (nbr_periodic_visit c s n).1.clock = s.clock := by
  unfold nbr_periodic_visit
  cases n.state <;> simp only [] <;> repeat (first | rfl | split)

theorem periodic_loop_clock (c : nd6_conf) :
    ∀ (t : List nbr_entry) (s : nd_env), (periodic_loop c s t).1.clock = s.clock := by
  intro t
  induction t with
  | nil => intro s; rfl
  | cons e rest ih =>
    intro s
    rw [periodic_loop_cons]
    simp only []
    rw [ih, nbr_periodic_visit_clock]

theorem visit_env_clock (c : nd6_conf) (s : nd_env) (t : nbr_table_t) (k : rimeaddr_t) :
    (visit_env c s t k).clock = s.clock := periodic_loop_clock c _ s

/-- The state of the collaborators a tick returns is reached from their state
right after the visit of the slot under `k` by the visits of the slots behind it. -/
theorem periodic_env_after (c : nd6_conf) (k : rimeaddr_t) :
    ∀ (t : List nbr_entry) (s : nd_env) (e : nbr_entry),
      uip_ds6_nbr_ll_lookup t k = some e →
      (uip_ds6_neighbor_periodic c s t).1 =
        (periodic_loop c (nbr_periodic_visit c (visit_env c s t k) e.nbr).1
          (nbr_table_after t e)).1 := by
  intro t
  induction t with
  | nil => intro s e h; simp [uip_ds6_nbr_ll_lookup, nbr_table_get_from_lladdr] at h
  | cons x rest ih =>
    intro s e hlk
    have hek : e.lladdr = k := by
      simpa using List.find?_some (show (x :: rest).find? (fun y => y.lladdr == k) = some e from hlk)
    unfold uip_ds6_neighbor_periodic
    rw [periodic_loop_cons]
    by_cases hk : x.lladdr = k
    · have hxe : x = e := by
        simpa [uip_ds6_nbr_ll_lookup, nbr_table_get_from_lladdr, List.find?_cons, hk] using hlk
      subst hxe
      have hve : visit_env c s (x :: rest) k = s := by
        simp [visit_env, List.takeWhile_cons, hk, periodic_loop]
      have haf : nbr_table_after (x :: rest) x = rest := by
        simp [nbr_table_after, List.dropWhile_cons]
      rw [hve, haf]
    · have hlk2 : uip_ds6_nbr_ll_lookup rest k = some e := by
        simpa [uip_ds6_nbr_ll_lookup, nbr_table_get_from_lladdr, List.find?_cons, hk] using hlk
      have hve : visit_env c s (x :: rest) k =
          visit_env c (nbr_periodic_visit c s x.nbr).1 rest k := by
        simp [visit_env, List.takeWhile_cons, hk, periodic_loop_cons]
      have haf : nbr_table_after (x :: rest) e = nbr_table_after rest e := by
        simp [nbr_table_after, List.dropWhile_cons, hek, hk]
      rw [hve, haf]
      exact ih (nbr_periodic_visit c s x.nbr).1 e hlk2

/-- A visit either emits nothing and leaves the uIP buffer as it is, or emits
one solicitation and leaves a packet of length `ns_len` in the buffer. -/
theorem nbr_periodic_visit_emission (c : nd6_conf) (s : nd_env) (n : uip_ds6_nbr_t) :
    ((nbr_periodic_visit c s n).1.ns_sent = s.ns_sent ∧
      (nbr_periodic_visit c s n).1.uip_len = s.uip_len) ∨
    ((nbr_periodic_visit c s n).1.uip_len = c.ns_len ∧
      ∃ m, (nbr_periodic_visit c s n).1.ns_sent = s.ns_sent ++ [m]) := by
  unfold nbr_periodic_visit
  cases n.state <;> simp only []
  case NBR_PROBE =>
    split
    · left
      cases uip_ds6_defrt_lookup s.defrt n.ipaddr with
      | none => exact ⟨rfl, rfl⟩
      | some loc =>
        simp only []
        split <;> exact ⟨rfl, rfl⟩
    · split
      · exact Or.inr ⟨rfl, _, rfl⟩
      · exact Or.inl ⟨rfl, rfl⟩
  all_goals
    repeat (first
      | exact Or.inl ⟨rfl, rfl⟩
      | exact Or.inl ⟨trivial, trivial⟩
      | exact Or.inr ⟨rfl, _, rfl⟩
      | split)

/-- With a packet in the uIP buffer a visit emits nothing. -/
theorem nbr_periodic_visit_quiet (c : nd6_conf) (s : nd_env) (n : uip_ds6_nbr_t)
    (h : s.uip_len ≠ 0) :
    (nbr_periodic_visit c s n).1.ns_sent = s.ns_sent ∧
      (nbr_periodic_visit c s n).1.uip_len = s.uip_len := by
  have hb : (s.uip_len == 0) = false := by simpa using h
  unfold nbr_periodic_visit
  cases n.state <;> simp only [hb, Bool.and_false]
  case NBR_PROBE =>
    split
    · cases uip_ds6_defrt_lookup s.defrt n.ipaddr with
      | none => exact ⟨rfl, rfl⟩
      | some loc =>
        simp only []
        split <;> exact ⟨rfl, rfl⟩
    · exact ⟨rfl, rfl⟩
  all_goals
    repeat (first
      | exact ⟨rfl, rfl⟩
      | exact ⟨trivial, trivial⟩
      | split)

/-- With a packet in the uIP buffer the rest of a tick emits nothing. -/
theorem periodic_loop_quiet (c : nd6_conf) :
    ∀ (t : List nbr_entry) (s : nd_env), s.uip_len ≠ 0 →
      (periodic_loop c s t).1.ns_sent = s.ns_sent ∧
        (periodic_loop c s t).1.uip_len = s.uip_len := by
  intro t
  induction t with
  | nil => intro s _; exact ⟨rfl, rfl⟩
  | cons e rest ih =>
    intro s h
    rw [periodic_loop_cons]
    simp only []
    have h1 := nbr_periodic_visit_quiet c s e.nbr h
    have h2 := ih (nbr_periodic_visit c s e.nbr).1 (by rw [h1.2]; exact h)
    exact ⟨h2.1.trans h1.1, h2.2.trans h1.2⟩

/-- When the emitter leaves a packet in the buffer, a part of a tick that ends
with an empty buffer has emitted nothing. -/
theorem periodic_loop_silent (c : nd6_conf) (hns : c.ns_len ≠ 0) :
    ∀ (t : List nbr_entry) (s : nd_env), (periodic_loop c s t).1.uip_len = 0 →
      (periodic_loop c s t).1.ns_sent = s.ns_sent := by
  intro t
  induction t with
  | nil => intro s _; rfl
  | cons e rest ih =>
    intro s h
    rw [periodic_loop_cons] at h ⊢
    simp only [] at h ⊢
    rcases nbr_periodic_visit_emission c s e.nbr with ⟨h1, _⟩ | ⟨h1, _⟩
    · rw [ih _ h, h1]
    · have hq := periodic_loop_quiet c rest (nbr_periodic_visit c s e.nbr).1 (by rw [h1]; exact hns)
      rw [hq.2, h1] at h
      exact absurd h hns

/-- What a tick returns when the visit of the slot under `k` emits the
solicitation `m`: the state of the collaborators at that visit, with `m`
emitted, carried through the visits of the slots behind it; and, when the
emitter leaves a packet in the buffer and the buffer was empty at that visit,
`m` is the one solicitation the tick has emitted. -/
theorem periodic_emits_one (c : nd6_conf) (s : nd_env) (t : nbr_table_t) (k : rimeaddr_t)
    (e : nbr_entry) (n2 : uip_ds6_nbr_t) (src dest : Option uip_ipaddr_t) (tgt : uip_ipaddr_t)
    (hlk : uip_ds6_nbr_ll_lookup t k = some e)
    (hv : nbr_periodic_visit c (visit_env c s t k) e.nbr =
      (uip_nd6_ns_output c (visit_env c s t k) src dest tgt, some n2))
    (hlen : (visit_env c s t k).uip_len = 0) :
    (uip_ds6_neighbor_periodic c s t).1 =
        (periodic_loop c (uip_nd6_ns_output c (visit_env c s t k) src dest tgt)
          (nbr_table_after t e)).1 ∧
      (0 < c.ns_len →
        (uip_ds6_neighbor_periodic c s t).1.ns_sent = s.ns_sent ++ [⟨src, dest, tgt⟩]) := by
  have h1 := periodic_env_after c k t s e hlk
  rw [hv] at h1
  refine ⟨h1, fun hpos => ?_⟩
  have hns : c.ns_len ≠ 0 := by omega
  have hpre : (visit_env c s t k).ns_sent = s.ns_sent :=
    periodic_loop_silent c hns _ s hlen
  have hq := periodic_loop_quiet c (nbr_table_after t e)
    (uip_nd6_ns_output c (visit_env c s t k) src dest tgt) (by simpa [uip_nd6_ns_output] using hns)
  rw [h1, hq.1]
  simp [uip_nd6_ns_output, hpre]

/-! ## INCOMPLETE records -/

/-- One solicitation-eligible tick on an INCOMPLETE record below the limit. -/
theorem incomplete_tick (c : nd6_conf) (s : nd_env) (t : nbr_table_t) (k : rimeaddr_t)
    (e : nbr_entry) (hnd : (t.map (fun x => x.lladdr)).Nodup)
    (hlk : uip_ds6_nbr_ll_lookup t k = some e)
    (hst : e.nbr.state = .NBR_INCOMPLETE)
    (hlt : e.nbr.nscount < c.UIP_ND6_MAX_MULTICAST_SOLICIT)
    (hel : sol_eligible c s t k = true) :
    nbr_periodic_visit c (visit_env c s t k) e.nbr =
        (uip_nd6_ns_output c (visit_env c s t k) none none e.nbr.ipaddr,
          some { e.nbr with nscount := e.nbr.nscount + 1,
                            sendns := stimer_set s.clock (c.retrans_timer / 1000) }) ∧
      uip_ds6_nbr_ll_lookup (uip_ds6_neighbor_periodic c s t).2 k =
        some { e with nbr := { e.nbr with nscount := e.nbr.nscount + 1,
                                          sendns := stimer_set s.clock (c.retrans_timer / 1000) } } := by
  have hv : nbr_periodic_visit c (visit_env c s t k) e.nbr =
        (uip_nd6_ns_output c (visit_env c s t k) none none e.nbr.ipaddr,
          some { e.nbr with nscount := e.nbr.nscount + 1,
                            sendns := stimer_set s.clock (c.retrans_timer / 1000) }) := by
    have hel2 : (stimer_expired s.clock e.nbr.sendns && (visit_env c s t k).uip_len == 0) = true := by
      simpa [sol_eligible, hlk] using hel
    unfold nbr_periodic_visit
    rw [hst]
    simp only [visit_env_clock]
    rw [if_neg (by omega), if_pos hel2, hst]
  refine ⟨hv, ?_⟩
  rw [periodic_lookup c k t s e hnd hlk, hv]
  rfl

/-- A tick on an INCOMPLETE record that has reached the limit removes it. -/
theorem incomplete_remove (c : nd6_conf) (s : nd_env) (t : nbr_table_t) (k : rimeaddr_t)
    (e : nbr_entry) (hnd : (t.map (fun x => x.lladdr)).Nodup)
    (hlk : uip_ds6_nbr_ll_lookup t k = some e)
    (hst : e.nbr.state = .NBR_INCOMPLETE)
    (hge : c.UIP_ND6_MAX_MULTICAST_SOLICIT ≤ e.nbr.nscount) :
    uip_ds6_nbr_ll_lookup (uip_ds6_neighbor_periodic c s t).2 k = none := by
  rw [periodic_lookup c k t s e hnd hlk]
  unfold nbr_periodic_visit
  rw [hst]
  simp only []
  rw [if_pos hge]
  rfl

/-- A run of eligible ticks that stays within the limit keeps the record, in
INCOMPLETE, with one more solicitation counted per tick. -/
theorem incomplete_run (c : nd6_conf) (k : rimeaddr_t) :
    ∀ (ss : List nd_env) (t : nbr_table_t) (e : nbr_entry),
      (t.map (fun x => x.lladdr)).Nodup → uip_ds6_nbr_ll_lookup t k = some e →
      e.nbr.state = .NBR_INCOMPLETE →
      e.nbr.nscount + ss.length ≤ c.UIP_ND6_MAX_MULTICAST_SOLICIT →
      all_eligible c k ss t = true →
      ((periodic_run c ss t).map (fun x => x.lladdr)).Nodup ∧
      ∃ e2, uip_ds6_nbr_ll_lookup (periodic_run c ss t) k = some e2 ∧
        e2.nbr.state = .NBR_INCOMPLETE ∧ e2.nbr.nscount = e.nbr.nscount + ss.length ∧
        e2.nbr.ipaddr = e.nbr.ipaddr := by
  intro ss
  induction ss with
  | nil => intro t e hnd hlk hst _ _; exact ⟨hnd, e, hlk, hst, rfl, rfl⟩
  | cons s ss ih =>
    intro t e hnd hlk hst hle hel
    simp only [all_eligible, Bool.and_eq_true] at hel
    simp only [List.length_cons] at hle
    have h1 := (incomplete_tick c s t k e hnd hlk hst (by omega) hel.1).2
    obtain ⟨hnd2, e2, h2, h3, h4, h5⟩ :=
      ih (uip_ds6_neighbor_periodic c s t).2 _ (periodic_loop_nodup c s t hnd) h1 hst
        (by simp only []; omega) hel.2
    refine ⟨hnd2, e2, h2, h3, ?_, h5⟩
    simp only [] at h4
    simp only [List.length_cons]
    omega

theorem all_eligible_take (c : nd6_conf) (k : rimeaddr_t) :
    ∀ (j : Nat) (ss : List nd_env) (t : nbr_table_t),
      all_eligible c k ss t = true → all_eligible c k (ss.take j) t = true := by
  intro j
  induction j with
  | zero => intro ss t _; simp [all_eligible]
  | succ j ih =>
    intro ss t h
    cases ss with
    | nil => simpa using h
    | cons s ss =>
      simp only [all_eligible, Bool.and_eq_true, List.take_succ_cons] at h ⊢
      exact ⟨h.1, ih ss _ h.2⟩

theorem all_eligible_get (c : nd6_conf) (k : rimeaddr_t) :
    ∀ (j : Nat) (ss : List nd_env) (t : nbr_table_t) (sj : nd_env),
      all_eligible c k ss t = true → ss.get? j = some sj →
      sol_eligible c sj (periodic_run c (ss.take j) t) k = true := by
  intro j
  induction j with
  | zero =>
    intro ss t sj h hj
    cases ss with
    | nil => simp at hj
    | cons s ss =>
      simp only [List.get?_cons_zero, Option.some.injEq] at hj
      subst hj
      simp only [all_eligible, Bool.and_eq_true] at h
      simpa [periodic_run] using h.1
  | succ j ih =>
    intro ss t sj h hj
    cases ss with
    | nil => simp at hj
    | cons s ss =>
      simp only [List.get?_cons_succ] at hj
      simp only [all_eligible, Bool.and_eq_true] at h
      simpa [periodic_run] using ih ss _ sj h.2 hj

theorem periodic_run_append (c : nd6_conf) :
    ∀ (ss : List nd_env) (s : nd_env) (t : nbr_table_t),
      periodic_run c (ss ++ [s]) t = (uip_ds6_neighbor_periodic c s (periodic_run c ss t)).2 := by
  intro ss
  induction ss with
  | nil => intro s t; rfl
  | cons s0 ss ih => intro s t; simp only [List.cons_append, periodic_run]; exact ih s _

/-- C1: an INCOMPLETE record that starts with solicitation count 0, under a
limit of N multicast solicitations: in each of the first N solicitation-eligible
ticks the record is still in the table in INCOMPLETE with the number of past
ticks as its count; its visit emits exactly one multicast Neighbor Solicitation
for its address, which the tick hands back in the state it returns (that state
is the state at the visit, with the solicitation emitted, carried through the
visits of the slots behind the record, and when the emitter leaves a packet in
the uIP buffer the solicitation is the only one the tick adds to those emitted
before); the tick leaves the record in the table with the count one higher and
the solicitation timer restarted; the tick after those N removes it. -/
theorem incomplete_solicits_then_removed (c : nd6_conf) (k : rimeaddr_t) (t : nbr_table_t)
    (e : nbr_entry) (ss : List nd_env) (s_last : nd_env)
    (hnd : (t.map (fun x => x.lladdr)).Nodup)
    (hlk : uip_ds6_nbr_ll_lookup t k = some e)
    (hst : e.nbr.state = .NBR_INCOMPLETE) (h0 : e.nbr.nscount = 0)
    (hlen : ss.length = c.UIP_ND6_MAX_MULTICAST_SOLICIT)
    (hel : all_eligible c k ss t = true) :
    (∀ (j : Nat) (sj : nd_env), ss.get? j = some sj →
      ∃ ej, uip_ds6_nbr_ll_lookup (periodic_run c (ss.take j) t) k = some ej ∧
        ej.nbr.state = .NBR_INCOMPLETE ∧ ej.nbr.nscount = j ∧ ej.nbr.ipaddr = e.nbr.ipaddr ∧
        (nbr_periodic_visit c (visit_env c sj (periodic_run c (ss.take j) t) k) ej.nbr).1.ns_sent =
          (visit_env c sj (periodic_run c (ss.take j) t) k).ns_sent ++
            [⟨none, none, e.nbr.ipaddr⟩] ∧
        uip_ds6_nbr_ll_lookup
            (uip_ds6_neighbor_periodic c sj (periodic_run c (ss.take j) t)).2 k =
          some { ej with nbr := { ej.nbr with
                                  nscount := j + 1,
                                  sendns := stimer_set sj.clock (c.retrans_timer / 1000) } } ∧
        (uip_ds6_neighbor_periodic c sj (periodic_run c (ss.take j) t)).1 =
          (periodic_loop c
            (uip_nd6_ns_output c (visit_env c sj (periodic_run c (ss.take j) t) k)
              none none e.nbr.ipaddr)
            (nbr_table_after (periodic_run c (ss.take j) t) ej)).1 ∧
        (0 < c.ns_len →
          (uip_ds6_neighbor_periodic c sj (periodic_run c (ss.take j) t)).1.ns_sent =
            sj.ns_sent ++ [⟨none, none, e.nbr.ipaddr⟩])) ∧
    uip_ds6_nbr_ll_lookup (uip_ds6_neighbor_periodic c s_last (periodic_run c ss t)).2 k = none := by
  constructor
  · intro j sj hj
    have hjlt : j < ss.length := by
      rcases Nat.lt_or_ge j ss.length with h | h
      · exact h
      · rw [List.get?_eq_none.mpr h] at hj; cases hj
    have hlenj : (ss.take j).length = j := by simp [List.length_take]; omega
    obtain ⟨hnd2, ej, h1, h2, h3, h4⟩ :=
      incomplete_run c k (ss.take j) t e hnd hlk hst (by rw [hlenj]; omega)
        (all_eligible_take c k j ss t hel)
    rw [hlenj, h0, Nat.zero_add] at h3
    have helj := all_eligible_get c k j ss t sj hel hj
    have htick := incomplete_tick c sj _ k ej hnd2 h1 h2 (by omega) helj
    have hbuf : (visit_env c sj (periodic_run c (ss.take j) t) k).uip_len = 0 := by
      have : (stimer_expired sj.clock ej.nbr.sendns &&
          (visit_env c sj (periodic_run c (ss.take j) t) k).uip_len == 0) = true := by
        simpa [sol_eligible, h1] using helj
      simp only [Bool.and_eq_true, beq_iff_eq] at this
      exact this.2
    have hem := periodic_emits_one c sj _ k ej _ none none ej.nbr.ipaddr h1 htick.1 hbuf
    rw [h4] at hem
    refine ⟨ej, h1, h2, h3, h4, ?_, ?_, hem.1, hem.2⟩
    · rw [htick.1, ← h4]; rfl
    · rw [htick.2, h3]
  · obtain ⟨hnd2, eN, h1, h2, h3, _⟩ :=
      incomplete_run c k ss t e hnd hlk hst (by omega) hel
    exact incomplete_remove c s_last _ k eN hnd2 h1 h2 (by omega)

/-- Witness for C1: three eligible ticks on the record under address 7 of
`table_incomplete`, then a fourth tick; the first tick returns the one
solicitation for `addr_a` as all it has emitted. -/
theorem incomplete_solicits_then_removed_witness :
    (uip_ds6_neighbor_periodic conf_ex (env_ex 10) table_incomplete).1.ns_sent =
        [⟨none, none, addr_a⟩] ∧
      uip_ds6_nbr_ll_lookup (periodic_run conf_ex [env_ex 10, env_ex 20, env_ex 30] table_incomplete) 7
        ≠ none ∧
      uip_ds6_nbr_ll_lookup
        (uip_ds6_neighbor_periodic conf_ex (env_ex 40)
          (periodic_run conf_ex [env_ex 10, env_ex 20, env_ex 30] table_incomplete)).2 7 = none :=
  have h := incomplete_solicits_then_removed conf_ex 7 table_incomplete
      ⟨7, ⟨addr_a, 0, .NBR_INCOMPLETE, ⟨0, 0⟩, ⟨0, 0⟩, 0⟩⟩
      [env_ex 10, env_ex 20, env_ex 30] (env_ex 40)
      (by decide) (by decide) rfl rfl rfl (by decide)
  ⟨match h.1 0 (env_ex 10) rfl with
    | ⟨_, _, _, _, _, _, _, _, hns⟩ => hns (by decide),
   by decide, h.2⟩

/-- C2, as stated, fails: with a limit of three, after exactly three
solicitation-eligible ticks the lookup by link-layer address still returns the
record, with three solicitations counted. -/
theorem lookup_after_limit_ticks_present :
    conf_ex.UIP_ND6_MAX_MULTICAST_SOLICIT = 3 ∧
      uip_ds6_nbr_ll_lookup table_incomplete 7 =
        some ⟨7, ⟨addr_a, 0, .NBR_INCOMPLETE, ⟨0, 0⟩, ⟨0, 0⟩, 0⟩⟩ ∧
      all_eligible conf_ex 7 [env_ex 10, env_ex 20, env_ex 30] table_incomplete = true ∧
      uip_ds6_nbr_ll_lookup
          (periodic_run conf_ex [env_ex 10, env_ex 20, env_ex 30] table_incomplete) 7 =
        some ⟨7, ⟨addr_a, 0, .NBR_INCOMPLETE, ⟨0, 0⟩, ⟨30, 1⟩, 3⟩⟩ := by
  decide

/-- C2, amended: after exactly N solicitation-eligible ticks the lookup by the
link-layer address of the record still returns it, in INCOMPLETE with N
solicitations counted; the lookup returns absent after one further tick. -/
theorem lookup_absent_after_one_more_tick (c : nd6_conf) (k : rimeaddr_t) (t : nbr_table_t)
    (e : nbr_entry) (ss : List nd_env) (s_last : nd_env)
    (hnd : (t.map (fun x => x.lladdr)).Nodup)
    (hlk : uip_ds6_nbr_ll_lookup t k = some e)
    (hst : e.nbr.state = .NBR_INCOMPLETE) (h0 : e.nbr.nscount = 0)
    (hlen : ss.length = c.UIP_ND6_MAX_MULTICAST_SOLICIT)
    (hel : all_eligible c k ss t = true) :
    (∃ eN, uip_ds6_nbr_ll_lookup (periodic_run c ss t) k = some eN ∧
      eN.nbr.state = .NBR_INCOMPLETE ∧
      eN.nbr.nscount = c.UIP_ND6_MAX_MULTICAST_SOLICIT) ∧
    uip_ds6_nbr_ll_lookup (periodic_run c (ss ++ [s_last]) t) k = none := by
  obtain ⟨hnd2, eN, h1, h2, h3, _⟩ :=
    incomplete_run c k ss t e hnd hlk hst (by omega) hel
  refine ⟨⟨eN, h1, h2, by omega⟩, ?_⟩
  rw [periodic_run_append]
  exact incomplete_remove c s_last _ k eN hnd2 h1 h2 (by omega)

/-- Witness for the amended C2: three eligible ticks, then one more. -/
theorem lookup_absent_after_one_more_tick_witness :
    uip_ds6_nbr_ll_lookup
      (periodic_run conf_ex ([env_ex 10, env_ex 20, env_ex 30] ++ [env_ex 31]) table_incomplete) 7
      = none :=
  (lookup_absent_after_one_more_tick conf_ex 7 table_incomplete
      ⟨7, ⟨addr_a, 0, .NBR_INCOMPLETE, ⟨0, 0⟩, ⟨0, 0⟩, 0⟩⟩
      [env_ex 10, env_ex 20, env_ex 30] (env_ex 31)
      (by decide) (by decide) rfl rfl rfl (by decide)).2

/-! ## The default-route table during a tick -/

/-- A visit removes at most one default route, and never an infinite-lifetime one. -/
theorem nbr_periodic_visit_defrt (c : nd6_conf) (s : nd_env) (n : uip_ds6_nbr_t) :
    (nbr_periodic_visit c s n).1.defrt.Sublist s.defrt ∧
    ∀ rt ∈ s.defrt, rt.isinfinite = true → rt ∈ (nbr_periodic_visit c s n).1.defrt := by
  unfold nbr_periodic_visit
  cases n.state <;> simp only []
  case NBR_PROBE =>
    split
    · cases hl : uip_ds6_defrt_lookup s.defrt n.ipaddr with
      | none => exact ⟨List.Sublist.refl _, fun _ h _ => h⟩
      | some loc =>
        simp only []
        cases hi : loc.isinfinite with
        | true => exact ⟨List.Sublist.refl _, fun _ h _ => h⟩
        | false =>
          refine ⟨List.erase_sublist _ _, ?_⟩
          intro rt hrt hinf
          simp only [Bool.not_false, if_true, uip_ds6_defrt_rm]
          exact (List.mem_erase_of_ne (by rintro rfl; rw [hi] at hinf; cases hinf)).mpr hrt
    · split
      · exact ⟨List.Sublist.refl _, fun _ h _ => h⟩
      · exact ⟨List.Sublist.refl _, fun _ h _ => h⟩
  all_goals
    repeat (first | exact ⟨List.Sublist.refl _, fun _ h _ => h⟩ | split)

theorem periodic_loop_defrt (c : nd6_conf) :
    ∀ (t : List nbr_entry) (s : nd_env),
      (periodic_loop c s t).1.defrt.Sublist s.defrt ∧
      ∀ rt ∈ s.defrt, rt.isinfinite = true → rt ∈ (periodic_loop c s t).1.defrt := by
  intro t
  induction t with
  | nil => intro s; exact ⟨List.Sublist.refl _, fun _ h _ => h⟩
  | cons e rest ih =>
    intro s
    rw [periodic_loop_cons]
    simp only []
    have h1 := nbr_periodic_visit_defrt c s e.nbr
    have h2 := ih (nbr_periodic_visit c s e.nbr).1
    exact ⟨h2.1.trans h1.1, fun rt hrt hinf => h2.2 rt (h1.2 rt hrt hinf) hinf⟩

/-- The state of the collaborators after a tick is reached from their state
right after the visit of the slot under `k` by the visits of later slots. -/
theorem periodic_env_split (c : nd6_conf) (k : rimeaddr_t) :
    ∀ (t : List nbr_entry) (s : nd_env) (e : nbr_entry),
      uip_ds6_nbr_ll_lookup t k = some e →
      ∃ post, (uip_ds6_neighbor_periodic c s t).1 =
        (periodic_loop c (nbr_periodic_visit c (visit_env c s t k) e.nbr).1 post).1 := by
  intro t
  induction t with
  | nil => intro s e h; simp [uip_ds6_nbr_ll_lookup, nbr_table_get_from_lladdr] at h
  | cons x rest ih =>
    intro s e hlk
    unfold uip_ds6_neighbor_periodic
    rw [periodic_loop_cons]
    by_cases hk : x.lladdr = k
    · have hxe : x = e := by
        simpa [uip_ds6_nbr_ll_lookup, nbr_table_get_from_lladdr, List.find?_cons, hk] using hlk
      subst hxe
      have hve : visit_env c s (x :: rest) k = s := by
        simp [visit_env, List.takeWhile_cons, hk, periodic_loop]
      rw [hve]
      exact ⟨rest, rfl⟩
    · have hlk2 : uip_ds6_nbr_ll_lookup rest k = some e := by
        simpa [uip_ds6_nbr_ll_lookup, nbr_table_get_from_lladdr, List.find?_cons, hk] using hlk
      have hve : visit_env c s (x :: rest) k =
          visit_env c (nbr_periodic_visit c s x.nbr).1 rest k := by
        simp [visit_env, List.takeWhile_cons, hk, periodic_loop_cons]
      rw [hve]
      exact ih (nbr_periodic_visit c s x.nbr).1 e hlk2

theorem visit_env_defrt (c : nd6_conf) (s : nd_env) (t : nbr_table_t) (k : rimeaddr_t) :
    (visit_env c s t k).defrt.Sublist s.defrt := (periodic_loop_defrt c _ s).1

/-- The visit of a PROBE record at the limit removes the non-infinite default
route through its address, when next hops are unique in the route table. -/
theorem probe_visit_removes_route (c : nd6_conf) (s : nd_env) (n : uip_ds6_nbr_t)
    (rt : uip_ds6_defrt_t) (hnd : (s.defrt.map (fun r => r.ipaddr)).Nodup)
    (hst : n.state = .NBR_PROBE) (hge : c.UIP_ND6_MAX_UNICAST_SOLICIT ≤ n.nscount)
    (hip : rt.ipaddr = n.ipaddr) (hinf : rt.isinfinite = false) :
    rt ∉ (nbr_periodic_visit c s n).1.defrt := by
  by_cases hmem : rt ∈ s.defrt
  · have hfind : uip_ds6_defrt_lookup s.defrt n.ipaddr = some rt := by
      unfold uip_ds6_defrt_lookup
      cases hf : s.defrt.find? (fun r => r.ipaddr == n.ipaddr) with
      | none =>
        rw [List.find?_eq_none] at hf
        exact absurd (by simpa using hip) (hf rt hmem)
      | some r2 =>
        have h1 : r2.ipaddr = n.ipaddr := by simpa using List.find?_some hf
        have h2 := List.mem_of_find?_eq_some hf
        rw [List.inj_on_of_nodup_map hnd h2 hmem (h1.trans hip.symm)]
    unfold nbr_periodic_visit
    rw [hst]
    simp only []
    rw [if_pos hge, hfind]
    simp only [hinf, Bool.not_false, if_true, uip_ds6_defrt_rm]
    intro h
    exact ((List.Nodup.of_map _ hnd).mem_erase_iff.mp h).1 rfl
  · exact fun h => hmem ((nbr_periodic_visit_defrt c s n).1.subset h)

/-- C3: a PROBE record whose solicitation count has reached the unicast limit
is removed by one tick; no infinite-lifetime default route is removed by the
tick, and (next hops being unique in the route table) a finite-lifetime route
through the address of the record is gone after it. Below the limit the record
stays: an eligible tick counts one more solicitation, restarts the timer and
emits exactly one unicast Neighbor Solicitation to the address of the record,
which it hands back in the state it returns (that state is the state at the
visit, with the solicitation emitted, carried through the visits of the slots
behind the record, and when the emitter leaves a packet in the uIP buffer the
solicitation is the only one the tick adds to those emitted before); a tick
that is not eligible leaves the record as it is. -/
theorem probe_limit_removes_record_and_route (c : nd6_conf) (s : nd_env) (t : nbr_table_t)
    (k : rimeaddr_t) (e : nbr_entry)
    (hnd : (t.map (fun x => x.lladdr)).Nodup)
    (hlk : uip_ds6_nbr_ll_lookup t k = some e)
    (hst : e.nbr.state = .NBR_PROBE) :
    (c.UIP_ND6_MAX_UNICAST_SOLICIT ≤ e.nbr.nscount →
      uip_ds6_nbr_ll_lookup (uip_ds6_neighbor_periodic c s t).2 k = none ∧
      (∀ rt ∈ s.defrt, rt.isinfinite = true → rt ∈ (uip_ds6_neighbor_periodic c s t).1.defrt) ∧
      ((s.defrt.map (fun r => r.ipaddr)).Nodup →
        ∀ rt : uip_ds6_defrt_t, rt.ipaddr = e.nbr.ipaddr → rt.isinfinite = false →
          rt ∉ (uip_ds6_neighbor_periodic c s t).1.defrt)) ∧
    (e.nbr.nscount < c.UIP_ND6_MAX_UNICAST_SOLICIT →
      (sol_eligible c s t k = true →
        uip_ds6_nbr_ll_lookup (uip_ds6_neighbor_periodic c s t).2 k =
          some { e with nbr := { e.nbr with
                                 nscount := e.nbr.nscount + 1,
                                 sendns := stimer_set s.clock (c.retrans_timer / 1000) } } ∧
        (nbr_periodic_visit c (visit_env c s t k) e.nbr).1.ns_sent =
          (visit_env c s t k).ns_sent ++ [⟨none, some e.nbr.ipaddr, e.nbr.ipaddr⟩] ∧
        (uip_ds6_neighbor_periodic c s t).1 =
          (periodic_loop c
            (uip_nd6_ns_output c (visit_env c s t k) none (some e.nbr.ipaddr) e.nbr.ipaddr)
            (nbr_table_after t e)).1 ∧
        (0 < c.ns_len →
          (uip_ds6_neighbor_periodic c s t).1.ns_sent =
            s.ns_sent ++ [⟨none, some e.nbr.ipaddr, e.nbr.ipaddr⟩])) ∧
      (sol_eligible c s t k = false →
        uip_ds6_nbr_ll_lookup (uip_ds6_neighbor_periodic c s t).2 k = some e)) := by
  refine ⟨fun hge => ⟨?_, ?_, ?_⟩, fun hlt => ⟨fun hel => ?_, fun hel => ?_⟩⟩
  · rw [periodic_lookup c k t s e hnd hlk]
    unfold nbr_periodic_visit
    rw [hst]
    simp only []
    rw [if_pos hge]
    rfl
  · exact (periodic_loop_defrt c t s).2
  · intro hrn rt hip hinf hmem
    obtain ⟨post, hpost⟩ := periodic_env_split c k t s e hlk
    rw [hpost] at hmem
    have hE : ((visit_env c s t k).defrt.map (fun r => r.ipaddr)).Nodup :=
      ((visit_env_defrt c s t k).map _).nodup hrn
    exact probe_visit_removes_route c _ e.nbr rt hE hst hge hip hinf
      ((periodic_loop_defrt c post _).1.subset hmem)
  · have hel2 : (stimer_expired s.clock e.nbr.sendns && (visit_env c s t k).uip_len == 0) = true := by
      simpa [sol_eligible, hlk] using hel
    have hv : nbr_periodic_visit c (visit_env c s t k) e.nbr =
        (uip_nd6_ns_output c (visit_env c s t k) none (some e.nbr.ipaddr) e.nbr.ipaddr,
          some { e.nbr with nscount := e.nbr.nscount + 1,
                            sendns := stimer_set s.clock (c.retrans_timer / 1000) }) := by
      unfold nbr_periodic_visit
      rw [hst]
      simp only [visit_env_clock]
      rw [if_neg (by omega), if_pos hel2, hst]
    have hbuf : (visit_env c s t k).uip_len = 0 := by
      simp only [Bool.and_eq_true, beq_iff_eq] at hel2
      exact hel2.2
    have hem := periodic_emits_one c s t k e _ none (some e.nbr.ipaddr) e.nbr.ipaddr hlk hv hbuf
    rw [periodic_lookup c k t s e hnd hlk, hv]
    exact ⟨rfl, rfl, hem.1, hem.2⟩
  · have hel2 : (stimer_expired s.clock e.nbr.sendns && (visit_env c s t k).uip_len == 0) = false := by
      simpa [sol_eligible, hlk] using hel
    rw [periodic_lookup c k t s e hnd hlk]
    unfold nbr_periodic_visit
    rw [hst]
    simp only [visit_env_clock]
    rw [if_neg (by omega), hel2]
    rfl

/-- Witness for C3: the PROBE record of `table_probe` is at the limit of three;
the tick removes it and the finite-lifetime route through its address, and
keeps the infinite-lifetime route. The PROBE record of `table_probe_low` has
sent one solicitation; the tick at second 10 returns the unicast solicitation to
`addr_a` as all it has emitted. -/
theorem probe_limit_removes_record_and_route_witness :
    uip_ds6_nbr_ll_lookup (uip_ds6_neighbor_periodic conf_ex env_routes table_probe).2 7 = none ∧
      (⟨addr_b, true⟩ : uip_ds6_defrt_t) ∈
        (uip_ds6_neighbor_periodic conf_ex env_routes table_probe).1.defrt ∧
      (⟨addr_a, false⟩ : uip_ds6_defrt_t) ∉
        (uip_ds6_neighbor_periodic conf_ex env_routes table_probe).1.defrt ∧
      (uip_ds6_neighbor_periodic conf_ex (env_ex 10) table_probe_low).1.ns_sent =
        [⟨none, some addr_a, addr_a⟩] :=
  have h := (probe_limit_removes_record_and_route conf_ex env_routes table_probe 7
      ⟨7, ⟨addr_a, 0, .NBR_PROBE, ⟨0, 0⟩, ⟨0, 0⟩, 3⟩⟩ (by decide) (by decide) rfl).1 (by decide)
  have h2 := ((probe_limit_removes_record_and_route conf_ex (env_ex 10) table_probe_low 7
      ⟨7, ⟨addr_a, 0, .NBR_PROBE, ⟨0, 0⟩, ⟨0, 0⟩, 1⟩⟩ (by decide) (by decide) rfl).2
        (by decide)).1 (by decide)
  ⟨h.1, h.2.1 ⟨addr_b, true⟩ (by decide) rfl, h.2.2 (by decide) ⟨addr_a, false⟩ rfl rfl,
   h2.2.2.2 (by decide)⟩

/-- C4: one tick turns a REACHABLE record into STALE, every other field kept
and the record not removed, exactly when its reachable timer has expired at the
time of the tick; otherwise the record is left as it is. -/
theorem reachable_to_stale_iff_expired (c : nd6_conf) (s : nd_env) (t : nbr_table_t)
    (k : rimeaddr_t) (e : nbr_entry)
    (hnd : (t.map (fun x => x.lladdr)).Nodup)
    (hlk : uip_ds6_nbr_ll_lookup t k = some e)
    (hst : e.nbr.state = .NBR_REACHABLE) :
    (stimer_expired s.clock e.nbr.reachable = true →
      uip_ds6_nbr_ll_lookup (uip_ds6_neighbor_periodic c s t).2 k =
        some { e with nbr := { e.nbr with state := .NBR_STALE } }) ∧
    (stimer_expired s.clock e.nbr.reachable = false →
      uip_ds6_nbr_ll_lookup (uip_ds6_neighbor_periodic c s t).2 k = some e) ∧
    (∃ e2, uip_ds6_nbr_ll_lookup (uip_ds6_neighbor_periodic c s t).2 k = some e2 ∧
      (e2.nbr.state = .NBR_STALE ↔ stimer_expired s.clock e.nbr.reachable = true)) := by
  have hv : uip_ds6_nbr_ll_lookup (uip_ds6_neighbor_periodic c s t).2 k =
      if stimer_expired s.clock e.nbr.reachable = true then
        some { e with nbr := { e.nbr with state := .NBR_STALE } }
      else some e := by
    rw [periodic_lookup c k t s e hnd hlk]
    unfold nbr_periodic_visit
    rw [hst]
    simp only [visit_env_clock]
    split <;> rfl
  refine ⟨fun h => by rw [hv, if_pos h], fun h => by rw [hv, if_neg (by simp [h])], ?_⟩
  cases h : stimer_expired s.clock e.nbr.reachable with
  | true => exact ⟨_, by rw [hv, if_pos h], by simp⟩
  | false => exact ⟨e, by rw [hv, if_neg (by simp [h])], by simp [hst]⟩

/-- Witness for C4: at second 29 the REACHABLE record of `table_reachable` is
left as it is, at second 30 it becomes STALE. -/
theorem reachable_to_stale_iff_expired_witness :
    uip_ds6_nbr_ll_lookup (uip_ds6_neighbor_periodic conf_ex (env_ex 29) table_reachable).2 7 =
        some ⟨7, ⟨addr_a, 1, .NBR_REACHABLE, ⟨0, 30⟩, ⟨0, 0⟩, 0⟩⟩ ∧
      uip_ds6_nbr_ll_lookup (uip_ds6_neighbor_periodic conf_ex (env_ex 30) table_reachable).2 7 =
        some ⟨7, ⟨addr_a, 1, .NBR_STALE, ⟨0, 30⟩, ⟨0, 0⟩, 0⟩⟩ :=
  ⟨(reachable_to_stale_iff_expired conf_ex (env_ex 29) table_reachable 7
      ⟨7, ⟨addr_a, 1, .NBR_REACHABLE, ⟨0, 30⟩, ⟨0, 0⟩, 0⟩⟩ (by decide) (by decide) rfl).2.1
      (by decide),
   (reachable_to_stale_iff_expired conf_ex (env_ex 30) table_reachable 7
      ⟨7, ⟨addr_a, 1, .NBR_REACHABLE, ⟨0, 30⟩, ⟨0, 0⟩, 0⟩⟩ (by decide) (by decide) rfl).1
      (by decide)⟩

/-! ## Link-layer feedback -/

/-- The callback changes no record, whatever destination and status it is
called with. -/
theorem link_callback_table_unchanged (t : nbr_table_t) (dest : rimeaddr_t)
    (status numtx : Int) :
    (uip_ds6_link_neighbor_callback t dest status numtx).ds6_neighbors = t := by
  unfold uip_ds6_link_neighbor_callback
  split <;> rfl

/-- C5, the code at a failing input: `table_stale` keeps a STALE record under the
link-layer address 7; after a callback for the destination 7 with the status 0
of a successful transmission the hook has been invoked once, the table is as
before and the record is still in STALE, its reachable timer not restarted. -/
theorem link_callback_leaves_stale :
    (7 : rimeaddr_t) ≠ rimeaddr_null ∧
      uip_ds6_nbr_ll_lookup table_stale 7 =
        some ⟨7, ⟨addr_a, 1, .NBR_STALE, ⟨0, 30⟩, ⟨0, 0⟩, 2⟩⟩ ∧
      uip_ds6_link_neighbor_callback table_stale 7 0 1 = ⟨table_stale, [(7, 0, 1)]⟩ ∧
      uip_ds6_nbr_ll_lookup (uip_ds6_link_neighbor_callback table_stale 7 0 1).ds6_neighbors 7 =
        some ⟨7, ⟨addr_a, 1, .NBR_STALE, ⟨0, 30⟩, ⟨0, 0⟩, 2⟩⟩ := by
  decide

/-! ## Router relay policy -/

/-- With an empty out-subnet table only the head of the in-subnet table is
examined in the in-subnet branch: the records behind it have no influence on
the result. -/
theorem next_route_insubnet_tail_unused (r : rpl_info) (e : nbr_entry)
    (rest rest2 : nbr_table_t) (ipaddr : uip_ipaddr_t) :
    next_route r (e :: rest) [] ipaddr = next_route r (e :: rest2) [] ipaddr := rfl

/-- In a table with one slot per link-layer address, stepping with
`nbr_table_next` from a slot walks through the slots behind it one by one. -/
theorem nbr_table_after_step :
    ∀ (t : nbr_table_t) (x y : nbr_entry) (ys : List nbr_entry),
      (t.map (fun e => e.lladdr)).Nodup → nbr_table_after t x = y :: ys →
      nbr_table_next t x = some y ∧ nbr_table_after t y = ys := by
  intro t
  induction t with
  | nil => intro x y ys _ h; simp [nbr_table_after] at h
  | cons a t ih =>
    intro x y ys hnd h
    have hnd2 : a.lladdr ∉ t.map (fun e => e.lladdr) ∧ (t.map (fun e => e.lladdr)).Nodup := by
      simpa using hnd
    refine ⟨by simp [nbr_table_next, h], ?_⟩
    by_cases hk : a.lladdr = x.lladdr
    · have ht : t = y :: ys := by simpa [nbr_table_after, List.dropWhile_cons, hk] using h
      subst ht
      have hay : a.lladdr ≠ y.lladdr := fun hh => hnd2.1 (by simp [hh])
      simp [nbr_table_after, List.dropWhile_cons, hay]
    · have h2 : nbr_table_after t x = y :: ys := by
        simpa [nbr_table_after, List.dropWhile_cons, hk] using h
      have hy : y ∈ t := by
        have h3 : y ∈ nbr_table_after t x := by rw [h2]; simp
        exact (List.dropWhile_sublist _).subset ((List.drop_sublist 1 _).subset h3)
      have hay : a.lladdr ≠ y.lladdr :=
        fun hh => hnd2.1 (List.mem_map.mpr ⟨y, hy, hh.symm⟩)
      have h4 := (ih x y ys hnd2.2 h2).2
      simpa [nbr_table_after, List.dropWhile_cons, hay] using h4

/-- C6, the code at a failing input: the in-subnet table `insubnet_ex` holds, in
second place, the sibling with host field 9; for the destination `dest_leaf9`
(own prefix, leaf-id 9, own host id 3) `next_route` does not return the address
of that sibling but the super-router address, and `NULL` on the super router. -/
theorem next_route_misses_second_sibling :
    dest_leaf9.w3 = router_ex.my_prefix ∧ dest_leaf9.w2 ≠ router_ex.my_address.w7 ∧
      (⟨11, router_rec addr_b⟩ : nbr_entry) ∈ insubnet_ex ∧ addr_b.w7 = dest_leaf9.w2 ∧
      (next_route router_ex insubnet_ex [] dest_leaf9).ret = some router_ex.super_router_addr ∧
      (next_route router_ex insubnet_ex [] dest_leaf9).ret ≠ some addr_b ∧
      (next_route super_router_ex insubnet_ex [] dest_leaf9).ret = none := by
  decide

/-- C7, the code at a failing input: for the destination `dest_foreign` (prefix
2, own prefix 1) and the non-empty out-subnet table `outsubnet_ex`, `next_route`
returns `NULL`; the addresses of the records it selected went through the null
pointer `best_dest`. -/
theorem next_route_foreign_returns_null :
    dest_foreign.w3 ≠ router_ex.my_prefix ∧ outsubnet_ex ≠ [] ∧
      next_route router_ex insubnet_ex outsubnet_ex dest_foreign =
        ⟨none, dest_foreign, [addr_p3, addr_p7]⟩ := by
  decide

/-- C9: for a destination with the own prefix whose leaf-id is the own host id,
`next_route` returns the destination with its leaf-id word set to 0 and every
other word unchanged, whatever the two tables hold; the caller's address object
holds the same value. -/
theorem next_route_own_leaf (r : rpl_info) (insubnet_table outsubnet_table : nbr_table_t)
    (ipaddr : uip_ipaddr_t) (hp : ipaddr.w3 = r.my_prefix) (hl : ipaddr.w2 = r.my_address.w7) :
    (next_route r insubnet_table outsubnet_table ipaddr).ret =
        some ⟨ipaddr.w0, ipaddr.w1, 0, ipaddr.w3, ipaddr.w4, ipaddr.w5, ipaddr.w6, ipaddr.w7⟩ ∧
      (next_route r insubnet_table outsubnet_table ipaddr).ipaddr =
        ⟨ipaddr.w0, ipaddr.w1, 0, ipaddr.w3, ipaddr.w4, ipaddr.w5, ipaddr.w6, ipaddr.w7⟩ := by
  unfold next_route
  rw [if_pos (by simpa using hp), if_pos (by simpa using hl)]
  exact ⟨rfl, rfl⟩

/-- Witness for C9: the destination `dest_leaf3` on the router with prefix 1 and
host id 3. -/
theorem next_route_own_leaf_witness :
    (next_route router_ex insubnet_ex outsubnet_ex dest_leaf3).ret =
      some ⟨0xaaaa, 0, 0, 1, 0, 0, 0, 77⟩ :=
  (next_route_own_leaf router_ex insubnet_ex outsubnet_ex dest_leaf3 rfl rfl).1

/-! ## Lookups -/

theorem nbr_lookup_loop_eq_find (a : uip_ipaddr_t) :
    ∀ t : List nbr_entry, nbr_lookup_loop a t = t.find? (fun e => e.nbr.ipaddr == a) := by
  intro t
  induction t with
  | nil => rfl
  | cons e rest ih =>
    by_cases h : e.nbr.ipaddr = a
    · simp [nbr_lookup_loop, uip_ipaddr_cmp, h]
    · simp [nbr_lookup_loop, uip_ipaddr_cmp, h, ih]

/-- In a table with one slot per link-layer address, the lookup by the key of
a slot of the table returns that slot. -/
theorem ll_lookup_of_mem :
    ∀ (t : nbr_table_t) (e : nbr_entry), (t.map (fun x => x.lladdr)).Nodup → e ∈ t →
      uip_ds6_nbr_ll_lookup t e.lladdr = some e := by
  intro t
  induction t with
  | nil => intro e _ h; cases h
  | cons x rest ih =>
    intro e hnd he
    have hnd2 : x.lladdr ∉ rest.map (fun y => y.lladdr) ∧ (rest.map (fun y => y.lladdr)).Nodup := by
      simpa using hnd
    rcases List.mem_cons.mp he with rfl | he
    · simp [uip_ds6_nbr_ll_lookup, nbr_table_get_from_lladdr]
    · have hne : x.lladdr ≠ e.lladdr := fun hh => hnd2.1 (List.mem_map.mpr ⟨e, he, hh.symm⟩)
      have := ih e hnd2.2 he
      simpa [uip_ds6_nbr_ll_lookup, nbr_table_get_from_lladdr, List.find?_cons, hne] using this

/-- C16: for an address that is not the null pointer `uip_ds6_nbr_lookup` returns
the first record in iteration order whose address equals it, and returns "not
found" exactly when no record of the table has that address; for the null
pointer it returns "not found" whatever the table holds. -/
theorem nbr_lookup_first_match (t : nbr_table_t) (a : uip_ipaddr_t) :
    (uip_ds6_nbr_lookup t (some a) = none ↔ ∀ e ∈ t, e.nbr.ipaddr ≠ a) ∧
    (∀ e : nbr_entry, uip_ds6_nbr_lookup t (some a) = some e →
      e.nbr.ipaddr = a ∧
      ∃ pre post, t = pre ++ e :: post ∧ ∀ x ∈ pre, x.nbr.ipaddr ≠ a) ∧
    uip_ds6_nbr_lookup t none = none := by
  refine ⟨?_, ?_, rfl⟩
  · simp [uip_ds6_nbr_lookup, nbr_lookup_loop_eq_find]
  · intro e h
    simp only [uip_ds6_nbr_lookup, nbr_lookup_loop_eq_find] at h
    obtain ⟨h1, pre, post, h2, h3⟩ := List.find?_eq_some.mp h
    refine ⟨by simpa using h1, pre, post, h2, ?_⟩
    intro x hx
    simpa using h3 x hx

/-- C20: in a table with one slot per link-layer address, when
`uip_ds6_nbr_lladdr_from_ipaddr` resolves an address to a link-layer address,
`uip_ds6_nbr_ipaddr_from_lladdr` resolves that link-layer address back to the
same address, also when several records carry it. -/
theorem lladdr_ipaddr_round_trip (t : nbr_table_t) (ipaddr : Option uip_ipaddr_t)
    (ll : rimeaddr_t) (hnd : (t.map (fun x => x.lladdr)).Nodup)
    (h : uip_ds6_nbr_lladdr_from_ipaddr t ipaddr = some ll) :
    uip_ds6_nbr_ipaddr_from_lladdr t ll = ipaddr := by
  cases ipaddr with
  | none => simp [uip_ds6_nbr_lladdr_from_ipaddr, uip_ds6_nbr_lookup] at h
  | some a =>
    unfold uip_ds6_nbr_lladdr_from_ipaddr at h
    cases hl : uip_ds6_nbr_lookup t (some a) with
    | none => rw [hl] at h; cases h
    | some e =>
      rw [hl] at h
      simp only [uip_ds6_nbr_get_ll, Option.some.injEq] at h
      have hfind : t.find? (fun x => x.nbr.ipaddr == a) = some e := by
        simpa [uip_ds6_nbr_lookup, nbr_lookup_loop_eq_find] using hl
      have hmem := List.mem_of_find?_eq_some hfind
      have hip : e.nbr.ipaddr = a := by simpa using List.find?_some hfind
      unfold uip_ds6_nbr_ipaddr_from_lladdr
      rw [← h, ll_lookup_of_mem t e hnd hmem]
      simp only [hip]

/-- Witness for C20: in `table_same_ip` the address `addr_a` is carried by the
records under the link-layer addresses 4 and 7; it resolves to 4 and back. -/
theorem lladdr_ipaddr_round_trip_witness :
    uip_ds6_nbr_lladdr_from_ipaddr table_same_ip (some addr_a) = some 4 ∧
      uip_ds6_nbr_ipaddr_from_lladdr table_same_ip 4 = some addr_a :=
  ⟨by decide,
   lladdr_ipaddr_round_trip table_same_ip (some addr_a) 4 (by decide) (by decide)⟩

/-! ## Least remaining lifetime -/

theorem least_lifetime_loop_keeps (now : Nat) (x : nbr_entry) :
    ∀ l : List nbr_entry, least_lifetime_loop now (some x) l = some x := by
  intro l
  induction l with
  | nil => rfl
  | cons e rest ih =>
    simp only [least_lifetime_loop]
    rw [if_neg (Nat.lt_irrefl _)]
    exact ih

/-- C19: `uip_ds6_get_least_lifetime_neighbor` returns the first record in
iteration order of every non-empty table, whatever the reachable timers of the
records and the clock are, and no record for the empty table. -/
theorem least_lifetime_is_head (now : Nat) (t : nbr_table_t) :
    uip_ds6_get_least_lifetime_neighbor now t = nbr_table_head t ∧
    (∀ (e : nbr_entry) (rest : List nbr_entry),
      uip_ds6_get_least_lifetime_neighbor now (e :: rest) = some e) ∧
    uip_ds6_get_least_lifetime_neighbor now [] = none := by
  have h2 : ∀ (e : nbr_entry) (rest : List nbr_entry),
      uip_ds6_get_least_lifetime_neighbor now (e :: rest) = some e := by
    intro e rest
    simp only [uip_ds6_get_least_lifetime_neighbor, least_lifetime_loop]
    exact least_lifetime_loop_keeps now e rest
  refine ⟨?_, h2, rfl⟩
  cases t with
  | nil => rfl
  | cons e rest => rw [h2]; rfl

/-! ## The state machine of a tick -/

/-- What a visit can do to a record: remove it, only from INCOMPLETE or PROBE, or
leave it with its state kept or moved from REACHABLE to STALE or from DELAY to
PROBE; a STALE record is left as it is. -/
theorem nbr_periodic_visit_cases (c : nd6_conf) (s : nd_env) (n : uip_ds6_nbr_t) :
    ((nbr_periodic_visit c s n).2 = none ∧
      (n.state = .NBR_INCOMPLETE ∨ n.state = .NBR_PROBE)) ∨
    (∃ n2, (nbr_periodic_visit c s n).2 = some n2 ∧
      (n2.state = n.state ∨ (n.state = .NBR_REACHABLE ∧ n2.state = .NBR_STALE) ∨
        (n.state = .NBR_DELAY ∧ n2.state = .NBR_PROBE)) ∧
      (n.state = .NBR_STALE → n2 = n)) := by
  rcases n with ⟨ip, ro, st, re, se, nc⟩
  cases st <;> simp only [nbr_periodic_visit]
  case NBR_STALE => exact Or.inr ⟨_, rfl, Or.inl rfl, fun _ => rfl⟩
  all_goals
    repeat (first
      | exact Or.inl ⟨rfl, by simp⟩
      | exact Or.inr ⟨_, rfl, by simp, by simp⟩
      | split)

/-- C17: one tick inserts no slot; a record it removes was in INCOMPLETE or
PROBE; a record it keeps has its state unchanged or moved from REACHABLE to
STALE or from DELAY to PROBE, so no record is put into REACHABLE or INCOMPLETE;
and a record in STALE is left as it is. -/
theorem periodic_state_machine (c : nd6_conf) (s : nd_env) (t : nbr_table_t)
    (hnd : (t.map (fun x => x.lladdr)).Nodup) :
    (((uip_ds6_neighbor_periodic c s t).2.map (fun x => x.lladdr)).Sublist
      (t.map (fun x => x.lladdr))) ∧
    (∀ k : rimeaddr_t, uip_ds6_nbr_ll_lookup t k = none →
      uip_ds6_nbr_ll_lookup (uip_ds6_neighbor_periodic c s t).2 k = none) ∧
    (∀ (k : rimeaddr_t) (e : nbr_entry), uip_ds6_nbr_ll_lookup t k = some e →
      (uip_ds6_nbr_ll_lookup (uip_ds6_neighbor_periodic c s t).2 k = none ∧
        (e.nbr.state = .NBR_INCOMPLETE ∨ e.nbr.state = .NBR_PROBE)) ∨
      (∃ e2, uip_ds6_nbr_ll_lookup (uip_ds6_neighbor_periodic c s t).2 k = some e2 ∧
        (e2.nbr.state = e.nbr.state ∨
          (e.nbr.state = .NBR_REACHABLE ∧ e2.nbr.state = .NBR_STALE) ∨
          (e.nbr.state = .NBR_DELAY ∧ e2.nbr.state = .NBR_PROBE)) ∧
        (e2.nbr.state = .NBR_REACHABLE → e.nbr.state = .NBR_REACHABLE) ∧
        (e2.nbr.state = .NBR_INCOMPLETE → e.nbr.state = .NBR_INCOMPLETE) ∧
        (e.nbr.state = .NBR_STALE → e2 = e))) := by
  refine ⟨periodic_loop_keys_sublist c t s, ?_, ?_⟩
  · intro k hk
    apply lookup_none_of_not_mem
    intro hmem
    have hmem2 := (periodic_loop_keys_sublist c t s).subset hmem
    obtain ⟨x, hx, hxk⟩ := List.mem_map.mp hmem2
    have := ll_lookup_of_mem t x hnd hx
    rw [hxk, hk] at this
    cases this
  · intro k e hlk
    rw [periodic_lookup c k t s e hnd hlk]
    rcases nbr_periodic_visit_cases c (visit_env c s t k) e.nbr with ⟨h1, h2⟩ | ⟨n2, h1, h2, h3⟩
    · left
      rw [h1]
      exact ⟨rfl, h2⟩
    · right
      rw [h1]
      refine ⟨{ e with nbr := n2 }, rfl, h2, ?_, ?_, ?_⟩
      · intro h
        rcases h2 with h4 | ⟨_, h4⟩ | ⟨_, h4⟩
        · exact h4 ▸ h
        · simp only [] at h; rw [h4] at h; cases h
        · simp only [] at h; rw [h4] at h; cases h
      · intro h
        rcases h2 with h4 | ⟨_, h4⟩ | ⟨_, h4⟩
        · exact h4 ▸ h
        · simp only [] at h; rw [h4] at h; cases h
        · simp only [] at h; rw [h4] at h; cases h
      · intro h
        rw [h3 h]

/-- Witness for C17: in the tick at second 10 on `table_delay` the STALE record
under address 4 is left as it is and the DELAY record under address 7 moves to
PROBE. -/
theorem periodic_state_machine_witness :
    (∃ e2, uip_ds6_nbr_ll_lookup (uip_ds6_neighbor_periodic conf_ex (env_ex 10) table_delay).2 4
        = some e2 ∧ e2 = ⟨4, ⟨addr_b, 0, .NBR_STALE, ⟨0, 0⟩, ⟨0, 0⟩, 0⟩⟩) ∧
      (∃ e2, uip_ds6_nbr_ll_lookup (uip_ds6_neighbor_periodic conf_ex (env_ex 10) table_delay).2 7
        = some e2 ∧ e2.nbr.state = .NBR_PROBE) :=
  have h := (periodic_state_machine conf_ex (env_ex 10) table_delay (by decide)).2.2
  ⟨(h 4 ⟨4, ⟨addr_b, 0, .NBR_STALE, ⟨0, 0⟩, ⟨0, 0⟩, 0⟩⟩ (by decide)).elim
      (fun h1 => absurd h1.2 (by decide))
      (fun ⟨e2, h1, _, _, _, h5⟩ => ⟨e2, h1, h5 rfl⟩),
   ⟨⟨7, ⟨addr_a, 1, .NBR_PROBE, ⟨0, 5⟩, ⟨10, 0⟩, 0⟩⟩, by decide, rfl⟩⟩

/-- C18: one tick moves a DELAY record to PROBE, with the solicitation count set
to 0 and the solicitation timer put in the expired state, exactly when its
reachable timer has expired; otherwise the record is left as it is. In neither
case is the record removed, and its visit emits nothing. -/
theorem delay_to_probe_iff_expired (c : nd6_conf) (s : nd_env) (t : nbr_table_t)
    (k : rimeaddr_t) (e : nbr_entry)
    (hnd : (t.map (fun x => x.lladdr)).Nodup)
    (hlk : uip_ds6_nbr_ll_lookup t k = some e)
    (hst : e.nbr.state = .NBR_DELAY) :
    (stimer_expired s.clock e.nbr.reachable = true →
      uip_ds6_nbr_ll_lookup (uip_ds6_neighbor_periodic c s t).2 k =
        some { e with nbr := { e.nbr with state := .NBR_PROBE, nscount := 0,
                                          sendns := stimer_set s.clock 0 } } ∧
      stimer_expired s.clock (stimer_set s.clock 0) = true) ∧
    (stimer_expired s.clock e.nbr.reachable = false →
      uip_ds6_nbr_ll_lookup (uip_ds6_neighbor_periodic c s t).2 k = some e) ∧
    (∃ e2, uip_ds6_nbr_ll_lookup (uip_ds6_neighbor_periodic c s t).2 k = some e2 ∧
      (e2.nbr.state = .NBR_PROBE ↔ stimer_expired s.clock e.nbr.reachable = true)) ∧
    (nbr_periodic_visit c (visit_env c s t k) e.nbr).1 = visit_env c s t k := by
  have hv : nbr_periodic_visit c (visit_env c s t k) e.nbr =
      (visit_env c s t k,
        if stimer_expired s.clock e.nbr.reachable = true then
          some { e.nbr with state := .NBR_PROBE, nscount := 0, sendns := stimer_set s.clock 0 }
        else some e.nbr) := by
    unfold nbr_periodic_visit
    rw [hst]
    simp only [visit_env_clock]
    split <;> simp [hst]
  have hl := periodic_lookup c k t s e hnd hlk
  rw [hv] at hl
  refine ⟨fun h => ⟨?_, by simp [stimer_expired, stimer_set]⟩, fun h => ?_, ?_, by rw [hv]⟩
  · rw [hl]; simp [h]
  · rw [hl]; simp [h]
  · cases h : stimer_expired s.clock e.nbr.reachable with
    | true =>
      exact ⟨{ e with nbr := { e.nbr with state := .NBR_PROBE, nscount := 0,
                                          sendns := stimer_set s.clock 0 } },
        by rw [hl]; simp [h], by simp⟩
    | false => exact ⟨e, by rw [hl]; simp [h], by simp [hst]⟩

/-- Witness for C18: the DELAY record of `table_delay` is left as it is by the
tick at second 4 and moved to PROBE by the tick at second 5. -/
theorem delay_to_probe_iff_expired_witness :
    uip_ds6_nbr_ll_lookup (uip_ds6_neighbor_periodic conf_ex (env_ex 4) table_delay).2 7 =
        some ⟨7, ⟨addr_a, 1, .NBR_DELAY, ⟨0, 5⟩, ⟨0, 9⟩, 2⟩⟩ ∧
      uip_ds6_nbr_ll_lookup (uip_ds6_neighbor_periodic conf_ex (env_ex 5) table_delay).2 7 =
        some ⟨7, ⟨addr_a, 1, .NBR_PROBE, ⟨0, 5⟩, ⟨5, 0⟩, 0⟩⟩ :=
  ⟨(delay_to_probe_iff_expired conf_ex (env_ex 4) table_delay 7
      ⟨7, ⟨addr_a, 1, .NBR_DELAY, ⟨0, 5⟩, ⟨0, 9⟩, 2⟩⟩ (by decide) (by decide) rfl).2.1
      (by decide),
   ((delay_to_probe_iff_expired conf_ex (env_ex 5) table_delay 7
      ⟨7, ⟨addr_a, 1, .NBR_DELAY, ⟨0, 5⟩, ⟨0, 9⟩, 2⟩⟩ (by decide) (by decide) rfl).1
      (by decide)).1⟩

/-! ## Record lifecycle -/

theorem nbr_num_loop_eq (t : List nbr_entry) :
    ∀ num : Nat, nbr_num_loop num t = num + t.length := by
  induction t with
  | nil => intro num; rfl
  | cons e rest ih => intro num; simp only [nbr_num_loop, ih, List.length_cons]; omega

theorem uip_ds6_nbr_num_eq_length (t : nbr_table_t) : uip_ds6_nbr_num t = t.length := by
  simp [uip_ds6_nbr_num, nbr_num_loop_eq]

theorem accepts_iff (max : Nat) (t : nbr_table_t) (ll : rimeaddr_t) :
    nbr_table_accepts max t ll = true ↔
      ll ∉ t.map (fun x => x.lladdr) ∧ t.length < max := by
  simp only [nbr_table_accepts, Bool.and_eq_true, Bool.not_eq_true', List.any_eq_false,
    decide_eq_true_eq, List.mem_map, not_exists, not_and, beq_iff_eq]

theorem ll_lookup_append_new (t : nbr_table_t) (e : nbr_entry)
    (h : e.lladdr ∉ t.map (fun x => x.lladdr)) :
    uip_ds6_nbr_ll_lookup (t ++ [e]) e.lladdr = some e := by
  have h1 : t.find? (fun x => x.lladdr == e.lladdr) = none := by
    rw [List.find?_eq_none]
    intro x hx hk
    exact h (List.mem_map.mpr ⟨x, hx, by simpa using hk⟩)
  simp [uip_ds6_nbr_ll_lookup, nbr_table_get_from_lladdr, h1]

/-- C15: `uip_ds6_nbr_add` returns a record exactly when the table adapter
accepts the insertion of the link-layer address. The record returned then has
the address, the router flag and the state given, both timers expired (at the
clock value of the call and later), the solicitation count 0, and it is the
record that `uip_ds6_nbr_ll_lookup` returns for the link-layer address. When
the adapter rejects the insertion the result is no record and the table is as
before. -/
theorem nbr_add_result (max now : Nat) (t : nbr_table_t) (ipaddr : uip_ipaddr_t)
    (lladdr : rimeaddr_t) (isrouter : Nat) (state : nbr_state) :
    ((uip_ds6_nbr_add max now t ipaddr lladdr isrouter state).2.isSome =
      nbr_table_accepts max t lladdr) ∧
    (nbr_table_accepts max t lladdr = true →
      ∃ e, (uip_ds6_nbr_add max now t ipaddr lladdr isrouter state).2 = some e ∧
        e.lladdr = lladdr ∧ e.nbr.ipaddr = ipaddr ∧ e.nbr.isrouter = isrouter ∧
        e.nbr.state = state ∧ e.nbr.nscount = 0 ∧
        (∀ n, now ≤ n → stimer_expired n e.nbr.reachable = true ∧
          stimer_expired n e.nbr.sendns = true) ∧
        uip_ds6_nbr_ll_lookup (uip_ds6_nbr_add max now t ipaddr lladdr isrouter state).1 lladdr =
          some e) ∧
    (nbr_table_accepts max t lladdr = false →
      uip_ds6_nbr_add max now t ipaddr lladdr isrouter state = (t, none)) := by
  refine ⟨?_, ?_, ?_⟩
  · unfold uip_ds6_nbr_add
    cases nbr_table_accepts max t lladdr <;> rfl
  · intro h
    refine ⟨⟨lladdr, ⟨ipaddr, isrouter, state, stimer_set now 0, stimer_set now 0, 0⟩⟩,
      by simp [uip_ds6_nbr_add, h], rfl, rfl, rfl, rfl, rfl, ?_, ?_⟩
    · intro n hn
      simp [stimer_expired, stimer_set, hn]
    · simp only [uip_ds6_nbr_add, h, if_true]
      exact ll_lookup_append_new t ⟨lladdr, _⟩ ((accepts_iff max t lladdr).mp h).1
  · intro h
    simp [uip_ds6_nbr_add, h]

theorem remove_length_of_mem :
    ∀ (t : nbr_table_t) (e : nbr_entry), (t.map (fun x => x.lladdr)).Nodup →
      e.lladdr ∈ t.map (fun x => x.lladdr) →
      (nbr_table_remove t e).length + 1 = t.length := by
  intro t
  induction t with
  | nil => intro e _ h; simp at h
  | cons x rest ih =>
    intro e hnd hmem
    have hnd2 : x.lladdr ∉ rest.map (fun y => y.lladdr) ∧ (rest.map (fun y => y.lladdr)).Nodup := by
      simpa using hnd
    by_cases hk : x.lladdr = e.lladdr
    · have hrest : rest.filter (fun y => y.lladdr != e.lladdr) = rest := by
        rw [List.filter_eq_self]
        intro y hy
        have : y.lladdr ≠ e.lladdr :=
          fun hh => hnd2.1 (List.mem_map.mpr ⟨y, hy, hh.trans hk.symm⟩)
        simpa using this
      simp [nbr_table_remove, List.filter_cons, hk, hrest]
    · have hmem2 : e.lladdr ∈ rest.map (fun y => y.lladdr) := by
        rcases List.mem_map.mp hmem with ⟨y, hy, hyk⟩
        rcases List.mem_cons.mp hy with rfl | hy
        · exact absurd hyk hk
        · exact List.mem_map.mpr ⟨y, hy, hyk⟩
      have := ih e hnd2.2 hmem2
      simp only [nbr_table_remove] at this
      simp [nbr_table_remove, List.filter_cons, hk, this]

theorem remove_of_not_mem (t : nbr_table_t) (e : nbr_entry)
    (h : e.lladdr ∉ t.map (fun x => x.lladdr)) : nbr_table_remove t e = t := by
  unfold nbr_table_remove
  rw [List.filter_eq_self]
  intro y hy
  have : y.lladdr ≠ e.lladdr := fun hh => h (List.mem_map.mpr ⟨y, hy, hh⟩)
  simpa using this

theorem remove_keys_sublist (t : nbr_table_t) (e : nbr_entry) :
    ((nbr_table_remove t e).map (fun x => x.lladdr)).Sublist (t.map (fun x => x.lladdr)) :=
  (List.filter_sublist t).map _

theorem ll_lookup_isSome_iff (t : nbr_table_t) (k : rimeaddr_t) :
    (uip_ds6_nbr_ll_lookup t k).isSome = true ↔ k ∈ t.map (fun x => x.lladdr) := by
  simp [uip_ds6_nbr_ll_lookup, nbr_table_get_from_lladdr, List.find?_isSome]

/-- One call keeps the table at one slot per link-layer address and the count
equal to adds that returned a record minus removals performed. -/
theorem nbr_op_step_inv (max : Nat) (tr : nbr_trace) (op : nbr_op)
    (hnd : (tr.table.map (fun x => x.lladdr)).Nodup)
    (hc : tr.table.length + tr.removed = tr.added) :
    ((nbr_op_step max tr op).table.map (fun x => x.lladdr)).Nodup ∧
    (nbr_op_step max tr op).table.length + (nbr_op_step max tr op).removed =
      (nbr_op_step max tr op).added := by
  cases op with
  | add now ipaddr lladdr isrouter state =>
    simp only [nbr_op_step, uip_ds6_nbr_add]
    cases ha : nbr_table_accepts max tr.table lladdr with
    | false => simpa using ⟨hnd, hc⟩
    | true =>
      have h1 := ((accepts_iff max tr.table lladdr).mp ha).1
      simp only [if_true, List.map_append, List.map_cons, List.map_nil, List.length_append,
        List.length_cons, List.length_nil]
      refine ⟨?_, by omega⟩
      rw [List.nodup_append]
      refine ⟨hnd, by simp, ?_⟩
      intro a ha1 ha2
      simp only [List.mem_singleton] at ha2
      exact h1 (ha2 ▸ ha1)
  | rm nbr =>
    cases nbr with
    | none => simpa [nbr_op_step, uip_ds6_nbr_rm] using ⟨hnd, hc⟩
    | some e =>
      simp only [nbr_op_step, uip_ds6_nbr_rm]
      cases hl : (uip_ds6_nbr_ll_lookup tr.table e.lladdr).isSome with
      | true =>
        have hmem := (ll_lookup_isSome_iff tr.table e.lladdr).mp hl
        have := remove_length_of_mem tr.table e hnd hmem
        simp only [if_true]
        exact ⟨(remove_keys_sublist tr.table e).nodup hnd, by omega⟩
      | false =>
        have hmem : e.lladdr ∉ tr.table.map (fun x => x.lladdr) := by
          intro h
          have := (ll_lookup_isSome_iff tr.table e.lladdr).mpr h
          rw [hl] at this
          cases this
        simp only [Bool.false_eq_true, if_false, remove_of_not_mem tr.table e hmem]
        exact ⟨hnd, hc⟩

theorem nbr_ops_run_inv (max : Nat) :
    ∀ (ops : List nbr_op) (tr : nbr_trace),
      (tr.table.map (fun x => x.lladdr)).Nodup → tr.table.length + tr.removed = tr.added →
      ((nbr_ops_run max ops tr).table.map (fun x => x.lladdr)).Nodup ∧
      (nbr_ops_run max ops tr).table.length + (nbr_ops_run max ops tr).removed =
        (nbr_ops_run max ops tr).added := by
  intro ops
  induction ops with
  | nil => intro tr hnd hc; exact ⟨hnd, hc⟩
  | cons op ops ih =>
    intro tr hnd hc
    have h := nbr_op_step_inv max tr op hnd hc
    exact ih _ h.1 h.2

theorem nbr_adds_run (max : Nat) :
    ∀ (l : List nbr_add_call) (tr : nbr_trace),
      (l.map (fun a => a.lladdr)).Nodup →
      (∀ a ∈ l, a.lladdr ∉ tr.table.map (fun x => x.lladdr)) →
      tr.table.length + l.length ≤ max →
      nbr_ops_run max (l.map (fun a => a.op)) tr =
        ⟨tr.table ++ l.map (fun a => a.entry), tr.added + l.length, tr.removed⟩ := by
  intro l
  induction l with
  | nil => intro tr _ _ _; simp [nbr_ops_run]
  | cons a l ih =>
    intro tr hnd hnew hlen
    have hnd2 : a.lladdr ∉ l.map (fun b => b.lladdr) ∧ (l.map (fun b => b.lladdr)).Nodup := by
      simpa using hnd
    simp only [List.length_cons] at hlen
    have hacc : nbr_table_accepts max tr.table a.lladdr = true :=
      (accepts_iff max tr.table a.lladdr).mpr ⟨hnew a (by simp), by omega⟩
    have hstep : nbr_op_step max tr a.op =
        ⟨tr.table ++ [a.entry], tr.added + 1, tr.removed⟩ := by
      simp [nbr_op_step, nbr_add_call.op, uip_ds6_nbr_add, hacc, nbr_add_call.entry]
    simp only [List.map_cons, nbr_ops_run, hstep]
    rw [ih ⟨tr.table ++ [a.entry], tr.added + 1, tr.removed⟩ hnd2.2 ?_ ?_]
    · simp only [List.append_assoc, List.singleton_append, List.length_cons, nbr_trace.mk.injEq,
        and_true, true_and]
      omega
    · intro b hb hmem
      simp only [List.map_append, List.map_cons, List.map_nil, List.mem_append,
        List.mem_singleton] at hmem
      rcases hmem with hmem | hmem
      · exact hnew b (List.mem_cons_of_mem _ hb) hmem
      · exact hnd2.1 (List.mem_map.mpr ⟨b, hb, by rw [hmem]; rfl⟩)
    · simp only [List.length_append, List.length_cons, List.length_nil]
      omega

/-- C14: after every sequence of `uip_ds6_nbr_add` and `uip_ds6_nbr_rm` calls on a
table that starts empty, `uip_ds6_nbr_num` is the number of adds that returned
a record minus the number of removals performed. In a table with room for N
slots, N adds with distinct link-layer addresses all return a record and give
the count N, and a further add returns no record and leaves the table, and so
the count, as it is. -/
theorem nbr_num_is_added_minus_removed (max : Nat) :
    (∀ ops : List nbr_op,
      uip_ds6_nbr_num (nbr_ops_run max ops ⟨[], 0, 0⟩).table =
          (nbr_ops_run max ops ⟨[], 0, 0⟩).added - (nbr_ops_run max ops ⟨[], 0, 0⟩).removed ∧
        (nbr_ops_run max ops ⟨[], 0, 0⟩).removed ≤ (nbr_ops_run max ops ⟨[], 0, 0⟩).added) ∧
    (∀ l : List nbr_add_call, (l.map (fun a => a.lladdr)).Nodup → l.length = max →
      (nbr_ops_run max (l.map (fun a => a.op)) ⟨[], 0, 0⟩).added = max ∧
      (nbr_ops_run max (l.map (fun a => a.op)) ⟨[], 0, 0⟩).table = l.map (fun a => a.entry) ∧
      uip_ds6_nbr_num (nbr_ops_run max (l.map (fun a => a.op)) ⟨[], 0, 0⟩).table = max ∧
      ∀ (now : Nat) (ipaddr : uip_ipaddr_t) (lladdr : rimeaddr_t) (isrouter : Nat)
        (state : nbr_state),
        uip_ds6_nbr_add max now (nbr_ops_run max (l.map (fun a => a.op)) ⟨[], 0, 0⟩).table
            ipaddr lladdr isrouter state =
          ((nbr_ops_run max (l.map (fun a => a.op)) ⟨[], 0, 0⟩).table, none)) := by
  constructor
  · intro ops
    have h := nbr_ops_run_inv max ops ⟨[], 0, 0⟩ (by simp) rfl
    rw [uip_ds6_nbr_num_eq_length]
    omega
  · intro l hnd hlen
    have hrun := nbr_adds_run max l ⟨[], 0, 0⟩ hnd (by simp) (by simp [hlen])
    rw [hrun]
    simp only [List.nil_append, Nat.zero_add, uip_ds6_nbr_num_eq_length, List.length_map]
    refine ⟨hlen, trivial, hlen, ?_⟩
    intro now ipaddr lladdr isrouter state
    have hrej : nbr_table_accepts max (l.map (fun a => a.entry)) lladdr = false := by
      cases h : nbr_table_accepts max (l.map (fun a => a.entry)) lladdr with
      | false => rfl
      | true =>
        have := ((accepts_iff max _ lladdr).mp h).2
        simp only [List.length_map] at this
        omega
    simp [uip_ds6_nbr_add, hrej]

/-- Witness for C14: in a table with room for four slots the four adds of
`four_adds` give the count 4, and a fifth add, under the new link-layer address
9, returns no record. -/
theorem nbr_num_is_added_minus_removed_witness :
    uip_ds6_nbr_num (nbr_ops_run 4 (four_adds.map (fun a => a.op)) ⟨[], 0, 0⟩).table = 4 ∧
      (uip_ds6_nbr_add 4 5 (nbr_ops_run 4 (four_adds.map (fun a => a.op)) ⟨[], 0, 0⟩).table
        addr_a 9 0 .NBR_REACHABLE).2 = none :=
  have h := (nbr_num_is_added_minus_removed 4).2 four_adds (by decide) rfl
  ⟨h.2.2.1, by rw [h.2.2.2 5 addr_a 9 0 .NBR_REACHABLE]⟩

/-! ## Router registration -/

theorem outsubnet_scan_false (ipaddr : uip_ipaddr_t) :
    ∀ t : List nbr_entry, outsubnet_scan ipaddr t = false →
      ipaddr.w3 ∉ t.map (fun e => e.nbr.ipaddr.w3) := by
  intro t
  induction t with
  | nil => intro _; simp
  | cons e rest ih =>
    intro h
    by_cases hk : e.nbr.ipaddr.w3 = ipaddr.w3
    · simp [outsubnet_scan, hk] at h
    · have h2 : outsubnet_scan ipaddr rest = false := by simpa [outsubnet_scan, hk] using h
      simp only [List.map_cons, List.mem_cons, not_or]
      exact ⟨fun hh => hk hh.symm, ih h2⟩

/-- What one call of `add_to_subnet_route_table` does: it returns 1 and has put
one record, with the address and link-layer address given, at the end of the
in-subnet table (own prefix) or of the out-subnet table (foreign prefix not yet
in that table), or it returns 0 and has left both tables as they were. -/
theorem add_to_subnet_route_table_cases (max now : Nat) (r : rpl_info)
    (ins outs : nbr_table_t) (ipaddr : uip_ipaddr_t) (lladdr : rimeaddr_t) :
    ((add_to_subnet_route_table max now r ins outs ipaddr lladdr).ret = 1 ∧
      ((ipaddr.w3 = r.my_prefix ∧
          (add_to_subnet_route_table max now r ins outs ipaddr lladdr).insubnet_table =
            ins ++ [⟨lladdr, ⟨ipaddr, 0, .NBR_REACHABLE, stimer_set now 0, stimer_set now 0, 0⟩⟩] ∧
          (add_to_subnet_route_table max now r ins outs ipaddr lladdr).outsubnet_table = outs) ∨
        (ipaddr.w3 ≠ r.my_prefix ∧ ipaddr.w3 ∉ outs.map (fun e => e.nbr.ipaddr.w3) ∧
          (add_to_subnet_route_table max now r ins outs ipaddr lladdr).insubnet_table = ins ∧
          (add_to_subnet_route_table max now r ins outs ipaddr lladdr).outsubnet_table =
            outs ++ [⟨lladdr, ⟨ipaddr, 0, .NBR_REACHABLE, stimer_set now 0, stimer_set now 0, 0⟩⟩]))) ∨
    ((add_to_subnet_route_table max now r ins outs ipaddr lladdr).ret = 0 ∧
      (add_to_subnet_route_table max now r ins outs ipaddr lladdr).insubnet_table = ins ∧
      (add_to_subnet_route_table max now r ins outs ipaddr lladdr).outsubnet_table = outs) := by
  unfold add_to_subnet_route_table
  by_cases hp : ipaddr.w3 = r.my_prefix
  · rw [if_pos (by simpa using hp)]
    cases hl : uip_ds6_nbr_lookup ins (some ipaddr) with
    | some e => exact Or.inr ⟨rfl, rfl, rfl⟩
    | none =>
      simp only [uip_ds6_nbr_add]
      cases ha : nbr_table_accepts max ins lladdr with
      | true => exact Or.inl ⟨rfl, Or.inl ⟨hp, rfl, rfl⟩⟩
      | false => exact Or.inr ⟨rfl, rfl, rfl⟩
  · rw [if_neg (by simpa using hp)]
    cases hs : outsubnet_scan ipaddr outs with
    | true => exact Or.inr ⟨rfl, rfl, rfl⟩
    | false =>
      simp only [uip_ds6_nbr_add, Bool.false_eq_true, if_false]
      cases ha : nbr_table_accepts max outs lladdr with
      | true => exact Or.inl ⟨rfl, Or.inr ⟨hp, outsubnet_scan_false ipaddr outs hs, rfl, rfl⟩⟩
      | false => exact Or.inr ⟨rfl, rfl, rfl⟩

theorem subnet_route_step_inv (max now : Nat) (r : rpl_info) (ins outs : nbr_table_t)
    (ipaddr : uip_ipaddr_t) (lladdr : rimeaddr_t)
    (h1 : (outs.map (fun e => e.nbr.ipaddr.w3)).Nodup)
    (h2 : ∀ e ∈ outs, e.nbr.ipaddr.w3 ≠ r.my_prefix)
    (h3 : ∀ e ∈ ins, e.nbr.ipaddr.w3 = r.my_prefix) :
    (((add_to_subnet_route_table max now r ins outs ipaddr lladdr).outsubnet_table.map
        (fun e => e.nbr.ipaddr.w3)).Nodup) ∧
    (∀ e ∈ (add_to_subnet_route_table max now r ins outs ipaddr lladdr).outsubnet_table,
      e.nbr.ipaddr.w3 ≠ r.my_prefix) ∧
    (∀ e ∈ (add_to_subnet_route_table max now r ins outs ipaddr lladdr).insubnet_table,
      e.nbr.ipaddr.w3 = r.my_prefix) := by
  rcases add_to_subnet_route_table_cases max now r ins outs ipaddr lladdr with
    ⟨_, ⟨hp, hi, ho⟩ | ⟨hp, hnew, hi, ho⟩⟩ | ⟨_, hi, ho⟩
  · rw [hi, ho]
    refine ⟨h1, h2, ?_⟩
    intro e he
    rcases List.mem_append.mp he with he | he
    · exact h3 e he
    · simp only [List.mem_singleton] at he
      rw [he]
      exact hp
  · rw [hi, ho]
    refine ⟨?_, ?_, h3⟩
    · rw [List.map_append, List.nodup_append]
      refine ⟨h1, by simp, ?_⟩
      intro a ha1 ha2
      simp only [List.map_cons, List.map_nil, List.mem_singleton] at ha2
      exact hnew (ha2 ▸ ha1)
    · intro e he
      rcases List.mem_append.mp he with he | he
      · exact h2 e he
      · simp only [List.mem_singleton] at he
        rw [he]
        exact hp
  · rw [hi, ho]
    exact ⟨h1, h2, h3⟩

/-- C12: on a router with own prefix P, after every sequence of
`add_to_subnet_route_table` calls that starts from empty tables, no two records
of the out-subnet table have the same prefix word, no record of the out-subnet
table has the prefix P, and every record of the in-subnet table has the
prefix P. -/
theorem subnet_tables_invariant (max : Nat) (r : rpl_info)
    (calls : List (Nat × uip_ipaddr_t × rimeaddr_t)) :
    ((subnet_route_run max r calls ([], [])).2.map (fun e => e.nbr.ipaddr.w3)).Nodup ∧
    (∀ e ∈ (subnet_route_run max r calls ([], [])).2, e.nbr.ipaddr.w3 ≠ r.my_prefix) ∧
    (∀ e ∈ (subnet_route_run max r calls ([], [])).1, e.nbr.ipaddr.w3 = r.my_prefix) := by
  have hgen : ∀ (calls : List (Nat × uip_ipaddr_t × rimeaddr_t)) (tt : nbr_table_t × nbr_table_t),
      (tt.2.map (fun e => e.nbr.ipaddr.w3)).Nodup →
      (∀ e ∈ tt.2, e.nbr.ipaddr.w3 ≠ r.my_prefix) →
      (∀ e ∈ tt.1, e.nbr.ipaddr.w3 = r.my_prefix) →
      ((subnet_route_run max r calls tt).2.map (fun e => e.nbr.ipaddr.w3)).Nodup ∧
      (∀ e ∈ (subnet_route_run max r calls tt).2, e.nbr.ipaddr.w3 ≠ r.my_prefix) ∧
      (∀ e ∈ (subnet_route_run max r calls tt).1, e.nbr.ipaddr.w3 = r.my_prefix) := by
    intro calls
    induction calls with
    | nil => intro tt h1 h2 h3; exact ⟨h1, h2, h3⟩
    | cons call calls ih =>
      intro tt h1 h2 h3
      obtain ⟨now, ipaddr, lladdr⟩ := call
      have h := subnet_route_step_inv max now r tt.1 tt.2 ipaddr lladdr h1 h2 h3
      exact ih _ h.1 h.2.1 h.2.2
  exact hgen calls ([], []) (by simp) (by simp) (by simp)

/-! ## Leaf relay policy -/

/-- C13: with an empty agent table the `next_route` of the leaf role returns "no
route" and calls `rpl_reset_dis_periodic_timer` exactly once, for every
destination; after one agent has been registered in the empty table it returns
the address of that agent, for every destination, and makes no such call. -/
theorem leaf_next_route_agent :
    (∀ dest : uip_ipaddr_t, Leaf.next_route [] dest = (none, 1)) ∧
    (∀ (max now : Nat) (ipaddr : uip_ipaddr_t) (lladdr : rimeaddr_t), 0 < max →
      (Leaf.add_to_agent_table max now [] ipaddr lladdr).1 = 1 ∧
      ∀ dest : uip_ipaddr_t,
        Leaf.next_route (Leaf.add_to_agent_table max now [] ipaddr lladdr).2 dest =
          (some ipaddr, 0)) := by
  refine ⟨fun _ => rfl, ?_⟩
  intro max now ipaddr lladdr hm
  have hacc : nbr_table_accepts max [] lladdr = true :=
    (accepts_iff max [] lladdr).mpr ⟨by simp, by simpa using hm⟩
  have hadd : Leaf.add_to_agent_table max now [] ipaddr lladdr =
      (1, [⟨lladdr, ⟨ipaddr, 0, .NBR_REACHABLE, stimer_set now 0, stimer_set now 0, 0⟩⟩]) := by
    simp [Leaf.add_to_agent_table, uip_ds6_nbr_add, hacc]
  rw [hadd]
  exact ⟨rfl, fun _ => rfl⟩

/-- Witness for C13: the agent `addr_a` registered under the link-layer address
7 in a single-slot agent table is the next hop for `dest_foreign`. -/
theorem leaf_next_route_agent_witness :
    Leaf.next_route (Leaf.add_to_agent_table 1 3 [] addr_a 7).2 dest_foreign = (some addr_a, 0) :=
  (leaf_next_route_agent.2 1 3 addr_a 7 (by decide)).2 dest_foreign

end Ds6
